import Mathlib

/-!
# Verification of the pypred predicate engine specification

This file gives a shallow embedding, in Lean 4, of the parts of the
pypred library (pypred/ast.py, compare.py, contains.py, merge.py,
optimizer.py, compact.py, cache.py, set.py, util.py, tiler.py) that the
specification's testable claims are about, together with theorems
settling those claims.

Python floats are modelled as rationals, Python `None` raising paths as
`Option`, and the mutable AST rewrites of the source as pure functions
returning new trees.  Python's `deepcopy` (`ast.dup`) is the identity in
this functional setting.  Regular-expression matching is kept abstract
as a boolean oracle parameter, since no claim exercises it.
-/

set_option maxRecDepth 20000

namespace Pypred

/-- Value of an `ast.Constant` node: `True`, `False` or `None`
(`null`).  `some b` is a boolean, `none` is Python `None`. -/
abbrev ConstVal := Option Bool

/-- Python runtime values that pypred evaluation produces and consumes:
strings, floats (as rationals), booleans, `None`, lists, frozensets,
compiled regexes, and the two pypred sentinels `Undefined` and `Empty`
(instances of the corresponding AST node classes, which double as
values). Nested dictionaries are not modelled; no analyzed code path
resolves a dotted identifier through one. -/
inductive PyVal where
  | str (s : String)
  | num (q : ℚ)
  | bool (b : Bool)
  | none
  | list (xs : List PyVal)
  | set (xs : List PyVal)
  | regex (pat : String)
  | undef
  | empty
  deriving Repr

mutual
/-- Structural decidable equality used below to build `DecidableEq PyVal`. -/
def PyVal.beq : PyVal → PyVal → Bool
  | .str a, .str b => a == b
  | .num a, .num b => a == b
  | .bool a, .bool b => a == b
  | .none, .none => true
  | .list a, .list b => PyVal.beqList a b
  | .set a, .set b => PyVal.beqList a b
  | .regex a, .regex b => a == b
  | .undef, .undef => true
  | .empty, .empty => true
  | _, _ => false

/-- Pointwise `PyVal.beq` on lists. -/
def PyVal.beqList : List PyVal → List PyVal → Bool
  | [], [] => true
  | a :: as, b :: bs => PyVal.beq a b && PyVal.beqList as bs
  | _, _ => false
end

mutual
theorem PyVal.beq_iff : ∀ a b : PyVal, PyVal.beq a b = true ↔ a = b
  | .str a, .str b => by simp [PyVal.beq]
  | .num a, .num b => by simp [PyVal.beq]
  | .bool a, .bool b => by simp [PyVal.beq]
  | .none, .none => by simp [PyVal.beq]
  | .list a, .list b => by
      simpa [PyVal.beq] using PyVal.beqList_iff a b
  | .set a, .set b => by
      simpa [PyVal.beq] using PyVal.beqList_iff a b
  | .regex a, .regex b => by simp [PyVal.beq]
  | .undef, .undef => by simp [PyVal.beq]
  | .empty, .empty => by simp [PyVal.beq]
  | .str a, .num b => by simp [PyVal.beq]
  | .str a, .bool b => by simp [PyVal.beq]
  | .str a, .none => by simp [PyVal.beq]
  | .str a, .list b => by simp [PyVal.beq]
  | .str a, .set b => by simp [PyVal.beq]
  | .str a, .regex b => by simp [PyVal.beq]
  | .str a, .undef => by simp [PyVal.beq]
  | .str a, .empty => by simp [PyVal.beq]
  | .num a, .str b => by simp [PyVal.beq]
  | .num a, .bool b => by simp [PyVal.beq]
  | .num a, .none => by simp [PyVal.beq]
  | .num a, .list b => by simp [PyVal.beq]
  | .num a, .set b => by simp [PyVal.beq]
  | .num a, .regex b => by simp [PyVal.beq]
  | .num a, .undef => by simp [PyVal.beq]
  | .num a, .empty => by simp [PyVal.beq]
  | .bool a, .str b => by simp [PyVal.beq]
  | .bool a, .num b => by simp [PyVal.beq]
  | .bool a, .none => by simp [PyVal.beq]
  | .bool a, .list b => by simp [PyVal.beq]
  | .bool a, .set b => by simp [PyVal.beq]
  | .bool a, .regex b => by simp [PyVal.beq]
  | .bool a, .undef => by simp [PyVal.beq]
  | .bool a, .empty => by simp [PyVal.beq]
  | .none, .str b => by simp [PyVal.beq]
  | .none, .num b => by simp [PyVal.beq]
  | .none, .bool b => by simp [PyVal.beq]
  | .none, .list b => by simp [PyVal.beq]
  | .none, .set b => by simp [PyVal.beq]
  | .none, .regex b => by simp [PyVal.beq]
  | .none, .undef => by simp [PyVal.beq]
  | .none, .empty => by simp [PyVal.beq]
  | .list a, .str b => by simp [PyVal.beq]
  | .list a, .num b => by simp [PyVal.beq]
  | .list a, .bool b => by simp [PyVal.beq]
  | .list a, .none => by simp [PyVal.beq]
  | .list a, .set b => by simp [PyVal.beq]
  | .list a, .regex b => by simp [PyVal.beq]
  | .list a, .undef => by simp [PyVal.beq]
  | .list a, .empty => by simp [PyVal.beq]
  | .set a, .str b => by simp [PyVal.beq]
  | .set a, .num b => by simp [PyVal.beq]
  | .set a, .bool b => by simp [PyVal.beq]
  | .set a, .none => by simp [PyVal.beq]
  | .set a, .list b => by simp [PyVal.beq]
  | .set a, .regex b => by simp [PyVal.beq]
  | .set a, .undef => by simp [PyVal.beq]
  | .set a, .empty => by simp [PyVal.beq]
  | .regex a, .str b => by simp [PyVal.beq]
  | .regex a, .num b => by simp [PyVal.beq]
  | .regex a, .bool b => by simp [PyVal.beq]
  | .regex a, .none => by simp [PyVal.beq]
  | .regex a, .list b => by simp [PyVal.beq]
  | .regex a, .set b => by simp [PyVal.beq]
  | .regex a, .undef => by simp [PyVal.beq]
  | .regex a, .empty => by simp [PyVal.beq]
  | .undef, .str b => by simp [PyVal.beq]
  | .undef, .num b => by simp [PyVal.beq]
  | .undef, .bool b => by simp [PyVal.beq]
  | .undef, .none => by simp [PyVal.beq]
  | .undef, .list b => by simp [PyVal.beq]
  | .undef, .set b => by simp [PyVal.beq]
  | .undef, .regex b => by simp [PyVal.beq]
  | .undef, .empty => by simp [PyVal.beq]
  | .empty, .str b => by simp [PyVal.beq]
  | .empty, .num b => by simp [PyVal.beq]
  | .empty, .bool b => by simp [PyVal.beq]
  | .empty, .none => by simp [PyVal.beq]
  | .empty, .list b => by simp [PyVal.beq]
  | .empty, .set b => by simp [PyVal.beq]
  | .empty, .regex b => by simp [PyVal.beq]
  | .empty, .undef => by simp [PyVal.beq]

theorem PyVal.beqList_iff : ∀ a b : List PyVal, PyVal.beqList a b = true ↔ a = b
  | [], [] => by simp [PyVal.beqList]
  | a :: as, b :: bs => by
      simp [PyVal.beqList, PyVal.beq_iff a b, PyVal.beqList_iff as bs]
  | [], _ :: _ => by simp [PyVal.beqList]
  | _ :: _, [] => by simp [PyVal.beqList]
end

instance : DecidableEq PyVal := fun a b =>
  decidable_of_iff (PyVal.beq a b = true) (PyVal.beq_iff a b)

/-! ## Python value semantics

`pyEq` / `pyNe` model Python `==` / `!=` as dispatched by
`CompareOperator.eval` (ast.py), including the `__eq__` / `__ne__`
overrides of `Undefined` (ast.py lines 562-573) and `Empty` (ast.py
lines 599-605) and Python's reflected-operand fallback. -/

/-- Python truthiness (`bool(v)`) for the modelled values.  `Undefined`,
`Empty` define `__bool__` returning `False` (ast.py). -/
def truthy : PyVal → Bool
  | .str s => !s.isEmpty
  | .num q => decide (q ≠ 0)
  | .bool b => b
  | .none => false
  | .list xs => !xs.isEmpty
  | .set xs => !xs.isEmpty
  | .regex _ => true
  | .undef => false
  | .empty => false

/-- Python `len(v)` where defined (`__len__`): strings, lists, sets. -/
def pyLen : PyVal → Option Nat
  | .str s => some s.length
  | .list xs => some xs.length
  | .set xs => some xs.length
  | _ => Option.none

/-- Is the value one of the sentinels `Undefined` / `Empty`
(`isinstance(v, (Undefined, Empty))`)? -/
def isSentinel : PyVal → Bool
  | .undef => true
  | .empty => true
  | _ => false

/-- Numeric view used by Python comparisons: floats compare as numbers
and booleans coerce (`True == 1`, `False == 0`). -/
def numOf : PyVal → Option ℚ
  | .num q => some q
  | .bool b => some (if b then 1 else 0)
  | _ => Option.none

/-- Membership test of `v` against the elements of `xs`
(by syntactic equality; frozensets of mixed bool/float keys that
would coerce are never built by the analyzed code). -/
def beqMem (v : PyVal) (xs : List PyVal) : Bool := xs.contains v

mutual
/-- Python `l == r` for the modelled values.  `Undefined.__eq__` is
true exactly on the sentinels; `Empty.__eq__` is additionally true on
zero-length collections; built-in types never equal the sentinels from
the left because their `__eq__` returns `NotImplemented` and the
reflected sentinel method decides. -/
def pyEq : PyVal → PyVal → Bool
  | .undef, r => isSentinel r
  | .empty, r => isSentinel r || pyLen r == some 0
  | _, .undef => false
  | l, .empty => pyLen l == some 0
  | .str a, .str b => a == b
  | .none, .none => true
  | .list a, .list b => pyEqList a b
  | .set a, .set b => a.all (fun x => beqMem x b) && b.all (fun x => beqMem x a)
  | .regex a, .regex b => a == b
  | l, r =>
      match numOf l, numOf r with
      | some a, some b => a == b
      | _, _ => false

/-- Pointwise Python `==` on lists. -/
def pyEqList : List PyVal → List PyVal → Bool
  | [], [] => true
  | a :: as, b :: bs => pyEq a b && pyEqList as bs
  | _, _ => false
end

/-- Python `l != r` as `CompareOperator.eval` sees it:
`Undefined.__ne__` answers for an `Undefined` left operand (false only
against another `Undefined`); every other left operand falls back to
the negation of `==` (default `__ne__`, or the reflected
`Undefined.__ne__`, which agree). -/
def pyNe : PyVal → PyVal → Bool
  | .undef, .undef => false
  | .undef, _ => true
  | l, r => !pyEq l r

/-- Comparison operator tags of `CompareOperator` (ast.py):
`>=`, `>`, `<=`, `<`, `=`, `!=`, `is`. -/
inductive CmpOp where
  | ge | gt | le | lt | eq | ne | isOp
  deriving DecidableEq, Repr

/-- Logical operator tags of `LogicalOperator`: `and`, `or`. -/
inductive LogOp where
  | and | or
  deriving DecidableEq, Repr

/-- Members of a `LiteralSet` (ast.py lines 773-849): the parser puts
`Literal`, `Number` and `Constant` factors inside `{...}`.  The Python
nodes compare and hash by their `value` alone, so a frozenset of them
is faithfully a duplicate-free list of these items. -/
inductive Item where
  | lit (name : String)
  | num (q : ℚ)
  | const (c : ConstVal)
  deriving DecidableEq, Repr

/-- Raw Python ordering (`<`, `<=`, `>`, `>=`) on the operand values,
reached only after the sentinel guard in `CompareOperator.eval`.
Numbers (and booleans) compare numerically, strings lexicographically;
remaining combinations raise `TypeError` in Python 3 (`none`);
list/list and set/set orderings exist in Python but are unreached by
validated predicates and are not modelled. -/
def rawOrder (op : CmpOp) (l r : PyVal) : Option Bool :=
  match numOf l, numOf r with
  | some a, some b =>
      match op with
      | .lt => some (decide (a < b))
      | .le => some (decide (a ≤ b))
      | .gt => some (decide (b < a))
      | .ge => some (decide (b ≤ a))
      | _ => Option.none
  | _, _ =>
      match l, r with
      | .str a, .str b =>
          match op with
          | .lt => some (decide (a < b))
          | .le => some (!decide (b < a))
          | .gt => some (decide (b < a))
          | .ge => some (!decide (a < b))
          | _ => Option.none
      | _, _ => Option.none

/-- Application of a comparison operator to already-evaluated operands:
the body of `CompareOperator.eval` (ast.py lines 264-288) after the two
sub-evaluations.  Equality operators (`=`, `is`) use `==`, `!=` uses
`!=`, and every ordering comparison returns `False` when either
operand is `Undefined` or `Empty`. -/
def compareVals (op : CmpOp) (l r : PyVal) : Option PyVal :=
  match op with
  | .eq => some (.bool (pyEq l r))
  | .isOp => some (.bool (pyEq l r))
  | .ne => some (.bool (pyNe l r))
  | _ =>
      if isSentinel l then some (.bool false)
      else if isSentinel r then some (.bool false)
      else (rawOrder op l r).map .bool

/-! ## The AST -/

/-- The pypred AST (ast.py).  `literal` and `litset` carry the mutable
`static` / `static_val` attributes set by static resolution; `branch`
children may be absent (`None`); `cached` wraps an expression with a
cache id.  `push` is `PushResult` with the predicate handle reduced to
an id. -/
inductive Expr where
  | literal (name : String) (static : Bool) (staticVal : Option PyVal)
  | number (q : ℚ)
  | constant (c : ConstVal)
  | regex (pat : String)
  | undefined
  | empty
  | litset (items : List Item) (static : Bool) (staticVal : Option (List PyVal))
  | negate (l : Expr)
  | compare (op : CmpOp) (l r : Expr)
  | logical (op : LogOp) (l r : Expr)
  | contains (l r : Expr)
  | matchOp (l r : Expr)
  | push (pid : Nat) (l : Expr)
  | both (l r : Expr)
  | branch (e : Expr) (l r : Option Expr)
  | cached (e : Expr) (cid : Nat)
  deriving Repr

/-- Evaluation context (`EvalContext`, ast.py lines 10-35): the
document and the predicate's resolver table it dereferences, the
per-evaluation literal cache, the `reach` counter, the results sink of
the owning set (`push_match`), and the `CachedNode` result cache with
its hit/miss counters. -/
structure Ctx where
  doc : List (String × PyVal)
  resolvers : List (String × PyVal)
  literals : List (String × PyVal) := []
  reach : Nat := 0
  results : List Nat := []
  cachedRes : List (Nat × PyVal) := []
  cacheHits : Nat := 0
  cacheMisses : Nat := 0
  deriving Repr

/-- Is the identifier a quoted string literal
(`identifier[0] == identifier[-1] and identifier[0] in (quote chars)`,
predicate.py)? -/
def isQuoted (s : String) : Bool :=
  !s.isEmpty && s.front == s.back && (s.front == '\'' || s.front == '"')

/-- The `identifier[1:-1]` strip of the quotes. -/
def stripQuotes (s : String) : String := (s.drop 1).dropRight 1

/-- `LiteralResolver.static_resolve` (predicate.py lines 30-40):
quoted identifiers resolve to their string content, everything else to
`Undefined`. -/
def staticResolve (ident : String) : PyVal :=
  if isQuoted ident then .str (stripQuotes ident) else PyVal.undef

/-- `LiteralResolver.resolve_identifier` (predicate.py lines 42-80):
quoted strings, then document lookup, then dotted-path lookup, then
registered resolvers, else `Undefined`.  Nested dictionaries are not in
the modelled value domain, so the dotted-path walk (which needs a
nested mapping to get past its first step) always falls through, as it
does on dict-free documents in the source. -/
def resolveIdentifier (ctx : Ctx) (ident : String) : PyVal :=
  if isQuoted ident then .str (stripQuotes ident)
  else
    match ctx.doc.lookup ident with
    | some v => v
    | Option.none =>
        match ctx.resolvers.lookup ident with
        | some v => v
        | Option.none => PyVal.undef

/-- `Literal.eval` (ast.py lines 455-469): per-context cache first,
then the cached static value or the resolver, storing the result. -/
def evalLiteral (ctx : Ctx) (name : String) (static : Bool)
    (staticVal : Option PyVal) : PyVal × Ctx :=
  match ctx.literals.lookup name with
  | some v => (v, ctx)
  | Option.none =>
      let v := if static then staticVal.getD .none else resolveIdentifier ctx name
      (v, { ctx with literals := (name, v) :: ctx.literals })

/-- Value of a non-literal `LiteralSet` item (`item.value`). -/
def constToVal : ConstVal → PyVal
  | some b => .bool b
  | Option.none => .none

/-- `LiteralSet.eval`, non-static path (ast.py lines 841-849):
literal items resolve through the context (with its cache), other
items contribute their value.  A quoted literal item resolves to the
same stripped string whether or not it was marked static, so the
per-item `static` flag needs no separate tracking. -/
def evalItems (ctx : Ctx) : List Item → List PyVal × Ctx
  | [] => ([], ctx)
  | .lit n :: rest =>
      let (v, ctx') := evalLiteral ctx n false Option.none
      let (vs, ctx'') := evalItems ctx' rest
      (v :: vs, ctx'')
  | .num q :: rest =>
      let (vs, ctx') := evalItems ctx rest
      (.num q :: vs, ctx')
  | .const c :: rest =>
      let (vs, ctx') := evalItems ctx rest
      (constToVal c :: vs, ctx')

/-- Python truthiness of an AST *node* object: `Undefined` and `Empty`
define `__bool__` as `False` and `LiteralSet` as `len > 0`
(ast.py); every other node is an ordinary truthy object. -/
def nodeTruthy : Expr → Bool
  | .undefined => false
  | .empty => false
  | .litset items _ _ => !items.isEmpty
  | _ => true

/-- Truthiness of an optional `Branch` child: `if res and self.left` /
`elif self.right` test the child object itself, so an absent (`None`)
child and a falsy node behave alike. -/
def childLive : Option Expr → Bool
  | Option.none => false
  | some x => nodeTruthy x

/-- Does the value support `in` (`hasattr(left, "__contains__")`)?
Strings, lists, sets do; so does `Undefined`, whose `__contains__`
always answers `False`; `Empty` does not define one. -/
def hasContains : PyVal → Bool
  | .str _ => true
  | .list _ => true
  | .set _ => true
  | .undef => true
  | _ => false

/-- Python `r in l` for supported `l`: substring test on strings
(raising `TypeError` for a non-string needle), element equality
on lists and sets, always `False` on `Undefined`. -/
def pyContains (l r : PyVal) : Option Bool :=
  match l with
  | .undef => some false
  | .str a =>
      match r with
      | .str b => some (a.data.tails.any (fun t => b.data.isPrefixOf t))
      | _ => Option.none
  | .list xs => some (xs.any (fun x => pyEq r x))
  | .set xs => some (xs.any (fun x => pyEq r x))
  | _ => Option.none

/-! Per-node evaluation steps.  Each `...Step` function is the body of
the corresponding `eval` method from ast.py, taking the already-run
left result and a continuation for the not-yet-run sub-evaluations so
that the recursive `eval` below stays a one-line dispatch per node. -/

/-- Body of `NegateOperator.eval`: `not self.left.eval(ctx)`. -/
def negateStep (lres : Option (PyVal × Ctx)) : Option (PyVal × Ctx) :=
  lres.map (fun p => (.bool (!truthy p.1), p.2))

/-- Body of `CompareOperator.eval`: evaluate left then right, apply the
operator (`compareVals`). -/
def cmpStep (op : CmpOp) (lres : Option (PyVal × Ctx))
    (rfun : Ctx → Option (PyVal × Ctx)) : Option (PyVal × Ctx) :=
  lres.bind (fun p =>
    (rfun p.2).bind (fun q =>
      (compareVals op p.1 q.1).map (fun v => (v, q.2))))

/-- Body of `LogicalOperator.eval` for `and`: short-circuit, returning
Python booleans. -/
def seqAnd (lres : Option (PyVal × Ctx))
    (rfun : Ctx → Option (PyVal × Ctx)) : Option (PyVal × Ctx) :=
  lres.bind (fun p =>
    if !truthy p.1 then some (.bool false, p.2)
    else (rfun p.2).map (fun q => (.bool (truthy q.1), q.2)))

/-- Body of `LogicalOperator.eval` for `or`: short-circuit. -/
def seqOr (lres : Option (PyVal × Ctx))
    (rfun : Ctx → Option (PyVal × Ctx)) : Option (PyVal × Ctx) :=
  lres.bind (fun p =>
    if truthy p.1 then some (.bool true, p.2)
    else (rfun p.2).map (fun q => (.bool (truthy q.1), q.2)))

/-- Body of `ContainsOperator.eval`: left first; if it lacks
`__contains__` the right side is never evaluated and the result is
false. -/
def containsStep (lres : Option (PyVal × Ctx))
    (rfun : Ctx → Option (PyVal × Ctx)) : Option (PyVal × Ctx) :=
  lres.bind (fun p =>
    if hasContains p.1 then
      (rfun p.2).bind (fun q =>
        (pyContains p.1 q.1).map (fun m => (.bool m, q.2)))
    else some (.bool false, p.2))

/-- Body of `MatchOperator.eval`: a non-string left is false without
evaluating the right; a non-regex right raises. -/
def matchesStep (rgx : String → String → Bool) (lres : Option (PyVal × Ctx))
    (rfun : Ctx → Option (PyVal × Ctx)) : Option (PyVal × Ctx) :=
  lres.bind (fun p =>
    match p.1 with
    | .str s =>
        (rfun p.2).bind (fun q =>
          match q.1 with
          | .regex pat => some (.bool (rgx pat s), q.2)
          | _ => Option.none)
    | _ => some (.bool false, p.2))

/-- Body of `PushResult.eval` after the `reach` increment: pushes the
predicate id into the results sink when the child is truthy. -/
def pushStep (pid : Nat) (lres : Option (PyVal × Ctx)) : Option (PyVal × Ctx) :=
  lres.bind (fun p =>
    if truthy p.1 then
      some (.bool true, { p.2 with results := p.2.results ++ [pid] })
    else some (.bool false, p.2))

/-- Body of `Both.eval`: both children run unconditionally; the result
is Python `l or r` (an operand, not a coerced boolean). -/
def bothStep (lres : Option (PyVal × Ctx))
    (rfun : Ctx → Option (PyVal × Ctx)) : Option (PyVal × Ctx) :=
  lres.bind (fun p =>
    (rfun p.2).bind (fun q =>
      some ((if truthy p.1 then p.1 else q.1), q.2)))

/-- Body of `Branch.eval` after the single condition evaluation:
`if res and self.left` / `elif self.right` / `return False`, where the
child tests are object truthiness (`childLive`). -/
def branchStep (eres : Option (PyVal × Ctx)) (lLive rLive : Bool)
    (lfun rfun : Ctx → Option (PyVal × Ctx)) : Option (PyVal × Ctx) :=
  eres.bind (fun p =>
    if truthy p.1 && lLive then lfun p.2
    else if rLive then rfun p.2
    else some (.bool false, p.2))

/-- Body of `CachedNode.eval`: `ctx.cached_res.get(cache_id, None)`
treats a stored `None` like an absent entry (miss); a hit bumps
`cache_hits`, a miss bumps `cache_misses`, evaluates and stores. -/
def cachedStep (cid : Nat) (ctx : Ctx)
    (efun : Ctx → Option (PyVal × Ctx)) : Option (PyVal × Ctx) :=
  let miss : Option (PyVal × Ctx) :=
    (efun { ctx with cacheMisses := ctx.cacheMisses + 1 }).map
      (fun p => (p.1, { p.2 with cachedRes := (cid, p.1) :: p.2.cachedRes }))
  match ctx.cachedRes.lookup cid with
  | some v => if v = PyVal.none then miss
              else some (v, { ctx with cacheHits := ctx.cacheHits + 1 })
  | Option.none => miss

/-- `Node.eval` (ast.py), with the regex engine abstracted as the
oracle `rgx pattern string`.  Returns `none` where the Python code
would raise.  Each clause dispatches to the `...Step` body above,
running sub-evaluations in source order. -/
def eval (rgx : String → String → Bool) : Expr → Ctx → Option (PyVal × Ctx)
  | .literal n st sv, ctx => some (evalLiteral ctx n st sv)
  | .number q, ctx => some (.num q, ctx)
  | .constant c, ctx => some (constToVal c, ctx)
  | .regex p, ctx => some (.regex p, ctx)
  | .undefined, ctx => some (.undef, ctx)
  | .empty, ctx => some (.empty, ctx)
  | .litset items st sv, ctx =>
      if st then some (.set (sv.getD []), ctx)
      else
        let (vs, ctx') := evalItems ctx items
        some (.set vs, ctx')
  | .negate l, ctx => negateStep (eval rgx l ctx)
  | .compare op l r, ctx =>
      cmpStep op (eval rgx l ctx) (fun cx => eval rgx r cx)
  | .logical .and l r, ctx =>
      seqAnd (eval rgx l ctx) (fun cx => eval rgx r cx)
  | .logical .or l r, ctx =>
      seqOr (eval rgx l ctx) (fun cx => eval rgx r cx)
  | .contains l r, ctx =>
      containsStep (eval rgx l ctx) (fun cx => eval rgx r cx)
  | .matchOp l r, ctx =>
      matchesStep rgx (eval rgx l ctx) (fun cx => eval rgx r cx)
  | .push pid l, ctx =>
      pushStep pid (eval rgx l { ctx with reach := ctx.reach + 1 })
  | .both l r, ctx =>
      bothStep (eval rgx l ctx) (fun cx => eval rgx r cx)
  | .branch e l r, ctx =>
      branchStep (eval rgx e ctx) (childLive l) (childLive r)
        (fun cx => match l with
          | some lx => eval rgx lx cx
          | Option.none => Option.none)
        (fun cx => match r with
          | some rx => eval rgx rx cx
          | Option.none => Option.none)
  | .cached e cid, ctx =>
      cachedStep cid ctx (fun cx => eval rgx e cx)

/-- `Node.evaluate` (ast.py lines 138-144): run under a fresh context
and coerce the result to a boolean. -/
def evalPredicate (rgx : String → String → Bool) (e : Expr)
    (doc : List (String × PyVal)) (resolvers : List (String × PyVal) := []) :
    Option Bool :=
  (eval rgx e { doc := doc, resolvers := resolvers }).map (fun p => truthy p.1)

/-! ## Claims about evaluation semantics (C5, C6, C10) -/

/-- C6: a `=`/`is` comparison of `Undefined` with `Undefined` or
`Empty` is true; `Empty` compared with `=`/`is` to any zero-length
collection is true; `!=` of `Undefined` against anything that is not
`Undefined`/`Empty` is true; and every `<`, `<=`, `>`, `>=` comparison
with an `Undefined`/`Empty` operand on either side is false. -/
theorem compare_undefined_empty_semantics
    (v w l r : PyVal) (op : CmpOp)
    (hv : pyLen v = some 0)
    (hw : isSentinel w = false)
    (hop : op = CmpOp.lt ∨ op = CmpOp.le ∨ op = CmpOp.gt ∨ op = CmpOp.ge)
    (hlr : isSentinel l = true ∨ isSentinel r = true) :
    (compareVals .eq .undef .undef = some (.bool true)
      ∧ compareVals .isOp .undef .undef = some (.bool true)
      ∧ compareVals .eq .undef .empty = some (.bool true)
      ∧ compareVals .isOp .undef .empty = some (.bool true))
    ∧ (compareVals .eq .empty v = some (.bool true)
      ∧ compareVals .isOp .empty v = some (.bool true))
    ∧ compareVals .ne .undef w = some (.bool true)
    ∧ compareVals op l r = some (.bool false) := by
  refine ⟨⟨rfl, rfl, rfl, rfl⟩, ⟨?_, ?_⟩, ?_, ?_⟩
  · cases v <;> simp_all [compareVals, pyEq, pyLen, isSentinel]
  · cases v <;> simp_all [compareVals, pyEq, pyLen, isSentinel]
  · cases w <;> simp_all [compareVals, pyNe, isSentinel]
  · rcases hop with rfl | rfl | rfl | rfl <;>
      rcases hlr with h | h <;>
      simp_all [compareVals]

/-- Witness for `compare_undefined_empty_semantics` at the concrete
values `v = ""`, `w = 3.0`, `op = <`, `l = Undefined`, `r = 1.0`. -/
theorem compare_undefined_empty_semantics_witness :
    (pyLen (.str "") = some 0 ∧ isSentinel (.num 3) = false
      ∧ isSentinel (PyVal.undef) = true)
    ∧ ((compareVals .eq .undef .undef = some (.bool true)
      ∧ compareVals .isOp .undef .undef = some (.bool true)
      ∧ compareVals .eq .undef .empty = some (.bool true)
      ∧ compareVals .isOp .undef .empty = some (.bool true))
    ∧ (compareVals .eq .empty (.str "") = some (.bool true)
      ∧ compareVals .isOp .empty (.str "") = some (.bool true))
    ∧ compareVals .ne .undef (.num 3) = some (.bool true)
    ∧ compareVals .lt .undef (.num 1) = some (.bool false)) :=
  ⟨⟨rfl, rfl, rfl⟩,
    compare_undefined_empty_semantics (.str "") (.num 3) .undef (.num 1) .lt
      rfl rfl (Or.inl rfl) (Or.inl rfl)⟩

/-- C10: `!=` is not the negation of `=` and not symmetric on the
`Undefined`/`Empty` pair: with `Undefined` on the left and `Empty` on
the right both `!=` and `=` evaluate true, while with the operands
swapped `!=` evaluates false.  Stated both on the operator kernel
`compareVals` and on full `Compare` node evaluation. -/
theorem neq_not_negation_of_eq_on_undefined_empty :
    compareVals .ne .undef .empty = some (.bool true)
    ∧ compareVals .eq .undef .empty = some (.bool true)
    ∧ compareVals .ne .empty .undef = some (.bool false)
    ∧ evalPredicate (fun _ _ => false) (.compare .ne .undefined .empty) [] = some true
    ∧ evalPredicate (fun _ _ => false) (.compare .eq .undefined .empty) [] = some true
    ∧ evalPredicate (fun _ _ => false) (.compare .ne .empty .undefined) [] = some false :=
  ⟨rfl, rfl, rfl, rfl, rfl, rfl⟩

/-- C5 counterexample: a `Branch` whose condition is truthy but whose
true-child is absent does **not** return false; `Branch.eval` falls
through to `elif self.right` and returns the false-child's value, here
true. -/
theorem branch_missing_true_child_falls_through :
    evalPredicate (fun _ _ => false)
        (.branch (.constant (some true)) Option.none (some (.constant (some true)))) []
      = some true
    ∧ some true ≠ (some false : Option Bool) :=
  ⟨rfl, by simp⟩

/-- C5 as amended: `Branch.eval` evaluates its condition exactly once
(its context effects are threaded once, as `ctx₁`), then evaluates
exactly one child: the true-child when the condition is truthy and
that child is present (and truthy as an object), otherwise the
false-child if that one is present, and only when that also fails does
it return false.  A missing child therefore diverts to the other
branch rather than forcing a false result. -/
theorem branch_eval_cases (rgx : String → String → Bool)
    (c : Expr) (l r : Option Expr) (lx rx : Expr) (ctx : Ctx)
    (v : PyVal) (ctx₁ : Ctx)
    (hc : eval rgx c ctx = some (v, ctx₁)) :
    (truthy v = true → l = some lx → nodeTruthy lx = true →
        eval rgx (.branch c l r) ctx = eval rgx lx ctx₁)
    ∧ ((truthy v = false ∨ childLive l = false) → r = some rx →
        nodeTruthy rx = true →
        eval rgx (.branch c l r) ctx = eval rgx rx ctx₁)
    ∧ ((truthy v = false ∨ childLive l = false) → childLive r = false →
        eval rgx (.branch c l r) ctx = some (.bool false, ctx₁)) := by
  have hb : eval rgx (.branch c l r) ctx
      = branchStep (eval rgx c ctx) (childLive l) (childLive r)
          (fun cx => match l with
            | some lx => eval rgx lx cx
            | Option.none => Option.none)
          (fun cx => match r with
            | some rx => eval rgx rx cx
            | Option.none => Option.none) := by simp only [eval]
  rw [hb, hc]
  refine ⟨?_, ?_, ?_⟩
  · intro hv hl hlx
    subst hl
    have hcl : childLive (some lx) = true := by simp [childLive, hlx]
    simp [branchStep, hv, hcl]
  · intro hcond hr hrx
    subst hr
    have hcr : childLive (some rx) = true := by simp [childLive, hrx]
    rcases hcond with hv | hl
    · simp [branchStep, hv, hcr]
    · simp [branchStep, hl, hcr]
  · intro hcond hr
    rcases hcond with hv | hl
    · simp [branchStep, hv, hr]
    · simp [branchStep, hl, hr]

/-- Witness for `branch_eval_cases`: a branch on constant true with
both children present. -/
theorem branch_eval_cases_witness :
    (eval (fun _ _ => false) (.constant (some true))
        { doc := [], resolvers := [] }
      = some (.bool true, { doc := [], resolvers := [] }))
    ∧ ((truthy (.bool true) = true →
          some (Expr.constant (some false)) = some (Expr.constant (some false)) →
          nodeTruthy (.constant (some false)) = true →
          eval (fun _ _ => false)
              (.branch (.constant (some true)) (some (.constant (some false)))
                (some (.constant (some true)))) { doc := [], resolvers := [] }
            = eval (fun _ _ => false) (.constant (some false))
                { doc := [], resolvers := [] })
      ∧ ((truthy (.bool true) = false
            ∨ childLive (some (.constant (some false))) = false) →
          some (Expr.constant (some true)) = some (Expr.constant (some true)) →
          nodeTruthy (.constant (some true)) = true →
          eval (fun _ _ => false)
              (.branch (.constant (some true)) (some (.constant (some false)))
                (some (.constant (some true)))) { doc := [], resolvers := [] }
            = eval (fun _ _ => false) (.constant (some true))
                { doc := [], resolvers := [] })
      ∧ ((truthy (.bool true) = false
            ∨ childLive (some (.constant (some false))) = false) →
          childLive (some (.constant (some true))) = false →
          eval (fun _ _ => false)
              (.branch (.constant (some true)) (some (.constant (some false)))
                (some (.constant (some true)))) { doc := [], resolvers := [] }
            = some (.bool false, { doc := [], resolvers := [] }))) :=
  ⟨rfl,
    branch_eval_cases (fun _ _ => false) (.constant (some true))
      (some (.constant (some false))) (some (.constant (some true)))
      (.constant (some false)) (.constant (some true))
      { doc := [], resolvers := [] } (.bool true)
      { doc := [], resolvers := [] } rfl⟩


/-! ## Canonicalizer (compare.py lines 17-48) and claim C8 -/

mutual
/-- Node size used for optimizer termination arguments.  A
`LiteralSet` counts 2 so that the empty-set-to-`Empty` rewrite is
strictly decreasing; `Branch` counts its condition and both optional
children. -/
def sz : Expr → Nat
  | .literal _ _ _ => 1
  | .number _ => 1
  | .constant _ => 1
  | .regex _ => 1
  | .undefined => 1
  | .empty => 1
  | .litset _ _ _ => 2
  | .negate l => 1 + sz l
  | .compare _ l r => 1 + sz l + sz r
  | .logical _ l r => 1 + sz l + sz r
  | .contains l r => 1 + sz l + sz r
  | .matchOp l r => 1 + sz l + sz r
  | .push _ l => 1 + sz l
  | .both l r => 1 + sz l + sz r
  | .branch e l r => 1 + sz e + szO l + szO r
  | .cached e _ => 1 + sz e

/-- Size of an optional child. -/
def szO : Option Expr → Nat
  | some x => sz x
  | Option.none => 0
end

theorem sz_pos : ∀ t : Expr, 1 ≤ sz t := by
  intro t
  cases t <;> simp only [sz] <;> omega

/-- `CompareOperator.OP_REVERSE` (ast.py lines 229-237). -/
def revOp : CmpOp → CmpOp
  | .ge => .le
  | .gt => .lt
  | .lt => .gt
  | .le => .ge
  | .eq => .eq
  | .ne => .ne
  | .isOp => .isOp

/-- `isinstance(n, ast.Literal)`. -/
def isLit : Expr → Bool
  | .literal _ _ _ => true
  | _ => false

/-- The `static` attribute of a `Literal` node (only read under an
`isinstance(..., Literal)` guard in the canonicalizer). -/
def litStatic : Expr → Bool
  | .literal _ s _ => s
  | _ => false

/-- The `value` attribute of a `Literal` node (the identifier string;
only read when both sides are literals). -/
def litVal : Expr → String
  | .literal v _ _ => v
  | _ => ""

/-- The condition under which `canonicalize`'s `replace_func`
(compare.py lines 26-45) calls `n.reverse()`: literal to the left, a
static literal pushed right, and same-kind literals in ascending
`value` order. -/
def revCond (l r : Expr) : Bool :=
  (!isLit l && isLit r)
  || (isLit l && isLit r &&
       ((litStatic l && !litStatic r)
        || (!litStatic l && !litStatic r && decide (litVal r < litVal l))
        || (litStatic l && litStatic r && decide (litVal r < litVal l))))

mutual
/-- `compare.canonicalize`: tile the tree with
`SimplePattern("types:CompareOperator")`, reversing each comparison in
place when `revCond` holds, and recurse into `left`/`right` children.
The tiler only descends through `left`/`right` attributes, so a
`Branch` condition and a `CachedNode` body are not visited. -/
def canonicalize : Expr → Expr
  | .compare op l r =>
      if revCond l r then .compare (revOp op) (canonicalize r) (canonicalize l)
      else .compare op (canonicalize l) (canonicalize r)
  | .negate l => .negate (canonicalize l)
  | .logical op l r => .logical op (canonicalize l) (canonicalize r)
  | .contains l r => .contains (canonicalize l) (canonicalize r)
  | .matchOp l r => .matchOp (canonicalize l) (canonicalize r)
  | .push pid l => .push pid (canonicalize l)
  | .both l r => .both (canonicalize l) (canonicalize r)
  | .branch e l r => .branch e (canonO l) (canonO r)
  | .literal n st sv => .literal n st sv
  | .number q => .number q
  | .constant c => .constant c
  | .regex p => .regex p
  | .undefined => .undefined
  | .empty => .empty
  | .litset items st sv => .litset items st sv
  | .cached e cid => .cached e cid

/-- Canonicalization of an optional `Branch` child. -/
def canonO : Option Expr → Option Expr
  | some x => some (canonicalize x)
  | Option.none => Option.none
end

theorem isLit_canon (x : Expr) : isLit (canonicalize x) = isLit x := by
  cases x <;> first
    | rfl
    | (simp only [canonicalize]; split <;> rfl)

theorem litStatic_canon (x : Expr) : litStatic (canonicalize x) = litStatic x := by
  cases x <;> first
    | rfl
    | (simp only [canonicalize]; split <;> rfl)

theorem litVal_canon (x : Expr) : litVal (canonicalize x) = litVal x := by
  cases x <;> first
    | rfl
    | (simp only [canonicalize]; split <;> rfl)

theorem revCond_canon (l r : Expr) :
    revCond (canonicalize l) (canonicalize r) = revCond l r := by
  unfold revCond
  rw [isLit_canon, isLit_canon, litStatic_canon, litStatic_canon,
    litVal_canon, litVal_canon]

theorem revCond_swap {l r : Expr} (h : revCond l r = true) :
    revCond r l = false := by
  unfold revCond at h ⊢
  have hasym : decide (litVal r < litVal l) = true →
      decide (litVal l < litVal r) = false := by
    intro h1
    simpa using lt_asymm (of_decide_eq_true h1)
  rcases hLl : isLit l <;> rcases hLr : isLit r <;>
    rcases hSl : litStatic l <;> rcases hSr : litStatic r <;>
    rcases hab : decide (litVal r < litVal l) <;>
    simp_all


/-- C8: canonicalization is idempotent — applying `canonicalize` twice
yields a tree structurally identical to applying it once.  After one
pass no comparison still satisfies the reversal condition, so the
second pass reverses no `Compare` node. -/
theorem canonicalize_idempotent (t : Expr) :
    canonicalize (canonicalize t) = canonicalize t := by
  suffices h : ∀ n, ∀ t : Expr, sz t ≤ n →
      canonicalize (canonicalize t) = canonicalize t from h (sz t) t le_rfl
  intro n
  induction n with
  | zero =>
      intro t ht
      have := sz_pos t
      omega
  | succ n ih =>
      intro t ht
      cases t with
      | compare op l r =>
          simp only [sz] at ht
          have hl : sz l ≤ n := by omega
          have hr : sz r ≤ n := by omega
          by_cases h : revCond l r = true
          · have h2 : revCond (canonicalize r) (canonicalize l) = false := by
              rw [revCond_canon]
              exact revCond_swap h
            simp only [canonicalize, h, if_true, h2, Bool.false_eq_true,
              if_false]
            rw [ih r hr, ih l hl]
          · have h0 : revCond l r = false := eq_false_of_ne_true h
            have h2 : revCond (canonicalize l) (canonicalize r) = false := by
              rw [revCond_canon]
              exact h0
            simp only [canonicalize, h0, h2, Bool.false_eq_true, if_false]
            rw [ih l hl, ih r hr]
      | negate l =>
          simp only [sz] at ht
          simp only [canonicalize]
          rw [ih l (by omega)]
      | logical op l r =>
          simp only [sz] at ht
          simp only [canonicalize]
          rw [ih l (by omega), ih r (by omega)]
      | contains l r =>
          simp only [sz] at ht
          simp only [canonicalize]
          rw [ih l (by omega), ih r (by omega)]
      | matchOp l r =>
          simp only [sz] at ht
          simp only [canonicalize]
          rw [ih l (by omega), ih r (by omega)]
      | push pid l =>
          simp only [sz] at ht
          simp only [canonicalize]
          rw [ih l (by omega)]
      | both l r =>
          simp only [sz] at ht
          simp only [canonicalize]
          rw [ih l (by omega), ih r (by omega)]
      | branch e l r =>
          simp only [sz] at ht
          simp only [canonicalize]
          cases l with
          | none =>
              cases r with
              | none => rfl
              | some rx =>
                  simp only [szO] at ht
                  simp only [canonO]
                  rw [ih rx (by omega)]
          | some lx =>
              cases r with
              | none =>
                  simp only [szO] at ht
                  simp only [canonO]
                  rw [ih lx (by omega)]
              | some rx =>
                  simp only [szO] at ht
                  simp only [canonO]
                  rw [ih lx (by omega), ih rx (by omega)]
      | literal name st sv => simp only [canonicalize]
      | number q => simp only [canonicalize]
      | constant c => simp only [canonicalize]
      | regex p => simp only [canonicalize]
      | undefined => simp only [canonicalize]
      | empty => simp only [canonicalize]
      | litset items st sv => simp only [canonicalize]
      | cached e cid => simp only [canonicalize]

/-! ## Peephole optimizer (optimizer.py) -/

/-- Pattern p1: `and` with left `Constant(False)` becomes
`Constant(False)`. -/
def ruleAndFalseLeft : Expr → Option Expr
  | .logical .and (.constant (some false)) _ => some (.constant (some false))
  | _ => Option.none

/-- Pattern p2: `and` with right `Constant(False)`. -/
def ruleAndFalseRight : Expr → Option Expr
  | .logical .and _ (.constant (some false)) => some (.constant (some false))
  | _ => Option.none

/-- Pattern p3: `or` with left `Constant(True)` becomes
`Constant(True)`. -/
def ruleOrTrueLeft : Expr → Option Expr
  | .logical .or (.constant (some true)) _ => some (.constant (some true))
  | _ => Option.none

/-- Pattern p4: `or` with right `Constant(True)`. -/
def ruleOrTrueRight : Expr → Option Expr
  | .logical .or _ (.constant (some true)) => some (.constant (some true))
  | _ => Option.none

/-- Pattern p5: `not(True)` becomes `False`. -/
def ruleNegTrue : Expr → Option Expr
  | .negate (.constant (some true)) => some (.constant (some false))
  | _ => Option.none

/-- Pattern p6: `not(False)` becomes `True`. -/
def ruleNegFalse : Expr → Option Expr
  | .negate (.constant (some false)) => some (.constant (some true))
  | _ => Option.none

/-- Pattern p7: `PushResult` of `Constant(False)` becomes
`Constant(False)`. -/
def rulePushFalse : Expr → Option Expr
  | .push _ (.constant (some false)) => some (.constant (some false))
  | _ => Option.none

/-- Pattern p8: `Both(False, False)` becomes `Constant(False)`. -/
def ruleBothFalse : Expr → Option Expr
  | .both (.constant (some false)) (.constant (some false)) =>
      some (.constant (some false))
  | _ => Option.none

/-- Pattern p9 (`ExtraBothPattern`): a `Both` with one
`Constant(False)` child is replaced by the other child — but only when
that candidate is a truthy node object (`if self._replacement(node)`),
so a falsy candidate (`Undefined`, `Empty`, an empty `LiteralSet`)
blocks the match. -/
def ruleExtraBoth : Expr → Option Expr
  | .both (.constant (some false)) r =>
      if nodeTruthy r then some r else Option.none
  | .both l (.constant (some false)) =>
      if nodeTruthy l then some l else Option.none
  | _ => Option.none

/-- Pattern p10 (`ShortCircuitLogicalPattern`): `and(True, x)`,
`or(False, x)`, `and(x, True)`, `or(x, False)` collapse to `x` when
`x` is a truthy node object; a `Constant` left operand that does not
trigger stops the search without examining the right operand. -/
def ruleShortCircuit : Expr → Option Expr
  | .logical op (.constant cv) r =>
      if (op = LogOp.and ∧ cv = some true) ∨ (op = LogOp.or ∧ cv = some false) then
        (if nodeTruthy r then some r else Option.none)
      else Option.none
  | .logical op l (.constant cv) =>
      if (op = LogOp.and ∧ cv = some true) ∨ (op = LogOp.or ∧ cv = some false) then
        (if nodeTruthy l then some l else Option.none)
      else Option.none
  | _ => Option.none

/-- `node.left if node.left else Constant(False)` of
`DeadBranchPattern.replacement`: a missing or falsy child yields
`Constant(False)`. -/
def childOrFalse : Option Expr → Expr
  | some x => if nodeTruthy x then x else .constant (some false)
  | Option.none => .constant (some false)

/-- Pattern p11 (`DeadBranchPattern`): a `Branch` on a `Constant`
condition is replaced by the live child (truthiness of the raw
constant value picks the side). -/
def ruleDeadBranch : Expr → Option Expr
  | .branch (.constant cv) l r =>
      if truthy (constToVal cv) then some (childOrFalse l)
      else some (childOrFalse r)
  | _ => Option.none

/-- Pattern p12: matches `str(value) == "frozenset([])"`, the Python 2
rendering of an empty frozenset; under Python 3 the rendering has no
brackets, so this pattern never fires. -/
def ruleEmptySetPy2 : Expr → Option Expr := fun _ => Option.none

/-- Pattern p13: `Contains` whose left node is `Empty` or `Undefined`
becomes `Constant(False)`. -/
def ruleContainsEmpty : Expr → Option Expr
  | .contains .empty _ => some (.constant (some false))
  | .contains .undefined _ => some (.constant (some false))
  | _ => Option.none

/-- Pattern p14: an empty `LiteralSet` becomes `Empty` (the Python 3
rendering `frozenset()`). -/
def ruleEmptySet : Expr → Option Expr
  | .litset [] _ _ => some .empty
  | _ => Option.none

/-- The optimization pattern list, in source order
(`optimization_patterns`, optimizer.py lines 52-108). -/
def optRules : List (Expr → Option Expr) :=
  [ruleAndFalseLeft, ruleAndFalseRight, ruleOrTrueLeft, ruleOrTrueRight,
   ruleNegTrue, ruleNegFalse, rulePushFalse, ruleBothFalse, ruleExtraBoth,
   ruleShortCircuit, ruleDeadBranch, ruleEmptySetPy2, ruleContainsEmpty,
   ruleEmptySet]

/-- One pattern attempt in the tiler's per-node loop
(`for p in patterns: ...`): a match counts one change
(`optimization_func`) and installs the replacement, which the
remaining patterns then see. -/
def optStep (acc : Nat × Expr) (rule : Expr → Option Expr) : Nat × Expr :=
  match rule acc.2 with
  | some e' => (acc.1 + 1, e')
  | Option.none => acc

/-- The full per-node pattern loop of `tile`. -/
def optApply (e : Expr) : Nat × Expr := optRules.foldl optStep (0, e)

/-- Recursion of `tile` into the `left`/`right` children of the
(possibly replaced) node, parameterized by the recursive pass `rec`
applied to each child.  Only `left`/`right` attributes are descended:
`Branch` conditions, `CachedNode` bodies and `LiteralSet` items are
not visited, and absent `Branch` children are skipped. -/
def optNodeChildren (rec : Expr → Nat × Expr) : Expr → Nat × Expr
  | .negate l =>
      let p := rec l
      (p.1, .negate p.2)
  | .compare op l r =>
      let p := rec l
      let q := rec r
      (p.1 + q.1, .compare op p.2 q.2)
  | .logical op l r =>
      let p := rec l
      let q := rec r
      (p.1 + q.1, .logical op p.2 q.2)
  | .contains l r =>
      let p := rec l
      let q := rec r
      (p.1 + q.1, .contains p.2 q.2)
  | .matchOp l r =>
      let p := rec l
      let q := rec r
      (p.1 + q.1, .matchOp p.2 q.2)
  | .push pid l =>
      let p := rec l
      (p.1, .push pid p.2)
  | .both l r =>
      let p := rec l
      let q := rec r
      (p.1 + q.1, .both p.2 q.2)
  | .branch x (some lx) (some rx) =>
      let p := rec lx
      let q := rec rx
      (p.1 + q.1, .branch x (some p.2) (some q.2))
  | .branch x (some lx) Option.none =>
      let p := rec lx
      (p.1, .branch x (some p.2) Option.none)
  | .branch x Option.none (some rx) =>
      let q := rec rx
      (q.1, .branch x Option.none (some q.2))
  | .branch x Option.none Option.none => (0, .branch x Option.none Option.none)
  | m => (0, m)

/-- One optimization pass (`optimization_pass` + `tile`): apply the
pattern loop at the node, then recurse into the `left`/`right`
children of the (possibly replaced) node.  The recursion carries a
fuel bounded by the node size; every replacement is strictly smaller,
so children always fit in one less fuel (`optPassF_spec`). -/
def optPassF : Nat → Expr → Nat × Expr
  | 0, e => (0, e)
  | fuel+1, e =>
      let c := (optApply e).1
      let p := optNodeChildren (fun x => optPassF fuel x) (optApply e).2
      (c + p.1, p.2)

/-- `optimization_pass`: tile the whole tree once, returning the
change count and the new tree. -/
def optimizationPass (e : Expr) : Nat × Expr := optPassF (sz e) e

/-- Iterated passes (tree component only). -/
def passesIter (e : Expr) : Nat → Expr
  | 0 => e
  | n+1 => passesIter (optimizationPass e).2 n

/-- The `optimize` loop (optimizer.py lines 13-23): run passes while
fuel (`max_pass`) remains and the previous pass changed at least
`min_change` nodes; `changes` starts at `min_change` so the first pass
always runs when fuel allows.  Returns the final tree and the number
of passes executed. -/
def optLoop : Nat → Expr → Nat → Expr × Nat
  | 0, e, _ => (e, 0)
  | f+1, e, mc =>
      let p := optimizationPass e
      if p.1 < mc then (p.2, 1)
      else
        let q := optLoop f p.2 mc
        (q.1, q.2 + 1)

/-- `optimize(node, max_pass=32, min_change=1)`. -/
def optimize (e : Expr) (maxPass : Nat := 32) (minChange : Nat := 1) : Expr :=
  (optLoop maxPass e minChange).1

/-- Passes executed by the `optimize` loop. -/
def optimizePassCount (e : Expr) (maxPass : Nat) (minChange : Nat) : Nat :=
  (optLoop maxPass e minChange).2

/-! ## Optimizer termination lemmas (claim C7) -/

theorem ruleAndFalseLeft_dec : ∀ e x, ruleAndFalseLeft e = some x → sz x < sz e := by
  intro e x h
  unfold ruleAndFalseLeft at h
  split at h
  · cases h
    simp only [sz]
    omega
  · exact absurd h (by simp)

theorem ruleAndFalseRight_dec : ∀ e x, ruleAndFalseRight e = some x → sz x < sz e := by
  intro e x h
  unfold ruleAndFalseRight at h
  split at h
  · cases h
    simp only [sz]
    omega
  · exact absurd h (by simp)

theorem ruleOrTrueLeft_dec : ∀ e x, ruleOrTrueLeft e = some x → sz x < sz e := by
  intro e x h
  unfold ruleOrTrueLeft at h
  split at h
  · cases h
    simp only [sz]
    omega
  · exact absurd h (by simp)

theorem ruleOrTrueRight_dec : ∀ e x, ruleOrTrueRight e = some x → sz x < sz e := by
  intro e x h
  unfold ruleOrTrueRight at h
  split at h
  · cases h
    simp only [sz]
    omega
  · exact absurd h (by simp)

theorem ruleNegTrue_dec : ∀ e x, ruleNegTrue e = some x → sz x < sz e := by
  intro e x h
  unfold ruleNegTrue at h
  split at h
  · cases h
    simp only [sz]
    omega
  · exact absurd h (by simp)

theorem ruleNegFalse_dec : ∀ e x, ruleNegFalse e = some x → sz x < sz e := by
  intro e x h
  unfold ruleNegFalse at h
  split at h
  · cases h
    simp only [sz]
    omega
  · exact absurd h (by simp)

theorem rulePushFalse_dec : ∀ e x, rulePushFalse e = some x → sz x < sz e := by
  intro e x h
  unfold rulePushFalse at h
  split at h
  · cases h
    simp only [sz]
    omega
  · exact absurd h (by simp)

theorem ruleBothFalse_dec : ∀ e x, ruleBothFalse e = some x → sz x < sz e := by
  intro e x h
  unfold ruleBothFalse at h
  split at h
  · cases h
    simp only [sz]
    omega
  · exact absurd h (by simp)

theorem ruleExtraBoth_dec : ∀ e x, ruleExtraBoth e = some x → sz x < sz e := by
  intro e x h
  unfold ruleExtraBoth at h
  split at h <;> try split at h
  all_goals cases h <;> (try simp only [sz]) <;> omega

theorem ruleShortCircuit_dec : ∀ e x, ruleShortCircuit e = some x → sz x < sz e := by
  intro e x h
  unfold ruleShortCircuit at h
  split at h <;> try split at h
  all_goals try split at h
  all_goals cases h <;> (try simp only [sz]) <;> omega

theorem ruleDeadBranch_dec : ∀ e x, ruleDeadBranch e = some x → sz x < sz e := by
  intro e x h
  have hco : ∀ o : Option Expr, sz (childOrFalse o) ≤ szO o + 1 := by
    intro o
    cases o with
    | none => simp [childOrFalse, szO, sz]
    | some y =>
        simp only [childOrFalse, szO]
        split
        · omega
        · simp only [sz]
          have := sz_pos y
          omega
  unfold ruleDeadBranch at h
  split at h
  · split at h <;>
      (cases h
       rename_i cv l r _
       first
         | (have h9 := hco l; simp only [sz, szO]; omega)
         | (have h9 := hco r; simp only [sz, szO]; omega))
  · exact absurd h (by simp)

theorem ruleEmptySetPy2_dec : ∀ e x, ruleEmptySetPy2 e = some x → sz x < sz e := by
  intro e x h
  exact absurd h (by simp [ruleEmptySetPy2])

theorem ruleContainsEmpty_dec : ∀ e x, ruleContainsEmpty e = some x → sz x < sz e := by
  intro e x h
  unfold ruleContainsEmpty at h
  split at h
  all_goals cases h <;> (try simp only [sz]) <;> omega

theorem ruleEmptySet_dec : ∀ e x, ruleEmptySet e = some x → sz x < sz e := by
  intro e x h
  unfold ruleEmptySet at h
  split at h
  · cases h
    simp only [sz]
    omega
  · exact absurd h (by simp)

theorem optRules_dec : ∀ r ∈ optRules, ∀ e x, r e = some x → sz x < sz e := by
  intro r hr
  simp only [optRules, List.mem_cons, List.mem_singleton] at hr
  rcases hr with rfl | rfl | rfl | rfl | rfl | rfl | rfl | rfl | rfl | rfl
    | rfl | rfl | rfl | rfl | h
  · exact ruleAndFalseLeft_dec
  · exact ruleAndFalseRight_dec
  · exact ruleOrTrueLeft_dec
  · exact ruleOrTrueRight_dec
  · exact ruleNegTrue_dec
  · exact ruleNegFalse_dec
  · exact rulePushFalse_dec
  · exact ruleBothFalse_dec
  · exact ruleExtraBoth_dec
  · exact ruleShortCircuit_dec
  · exact ruleDeadBranch_dec
  · exact ruleEmptySetPy2_dec
  · exact ruleContainsEmpty_dec
  · exact ruleEmptySet_dec
  · exact absurd h (by simp)

theorem optStep_foldl_spec :
    ∀ rs : List (Expr → Option Expr),
      (∀ r ∈ rs, ∀ e x, r e = some x → sz x < sz e) →
      ∀ c0 e,
        c0 ≤ (rs.foldl optStep (c0, e)).1
        ∧ sz (rs.foldl optStep (c0, e)).2 + (rs.foldl optStep (c0, e)).1
            ≤ sz e + c0
        ∧ ((rs.foldl optStep (c0, e)).1 = c0 →
            (rs.foldl optStep (c0, e)).2 = e) := by
  intro rs
  induction rs with
  | nil =>
      intro _ c0 e
      simp
  | cons r rs ih =>
      intro hrs c0 e
      have hr := hrs r (List.mem_cons_self r rs)
      have hrs' : ∀ r' ∈ rs, ∀ e x, r' e = some x → sz x < sz e :=
        fun r' h' => hrs r' (List.mem_cons_of_mem r h')
      rcases hcase : r e with _ | x
      · have hstep : optStep (c0, e) r = (c0, e) := by
          simp [optStep, hcase]
        simpa [List.foldl_cons, hstep] using ih hrs' c0 e
      · have hdec := hr e x hcase
        have hstep : optStep (c0, e) r = (c0 + 1, x) := by
          simp [optStep, hcase]
        have h2 := ih hrs' (c0 + 1) x
        rw [List.foldl_cons, hstep]
        refine ⟨by omega, by omega, ?_⟩
        intro hc
        omega

theorem optApply_spec (e : Expr) :
    sz (optApply e).2 + (optApply e).1 ≤ sz e
    ∧ ((optApply e).1 = 0 → (optApply e).2 = e) := by
  have h := optStep_foldl_spec optRules optRules_dec 0 e
  unfold optApply
  exact ⟨by omega, h.2.2⟩

theorem optNodeChildren_spec (rec : Expr → Nat × Expr) (m : Expr)
    (hrec : ∀ x, sz x < sz m →
      sz (rec x).2 + (rec x).1 ≤ sz x ∧ ((rec x).1 = 0 → (rec x).2 = x)) :
    sz (optNodeChildren rec m).2 + (optNodeChildren rec m).1 ≤ sz m
    ∧ ((optNodeChildren rec m).1 = 0 → (optNodeChildren rec m).2 = m) := by
  cases m with
  | negate l =>
      obtain ⟨h1, h2⟩ := hrec l (by simp only [sz]; omega)
      simp only [optNodeChildren, sz]
      exact ⟨by omega, fun h0 => by rw [h2 (by omega)]⟩
  | compare op l r =>
      obtain ⟨h1, h2⟩ := hrec l (by simp only [sz]; omega)
      obtain ⟨h3, h4⟩ := hrec r (by simp only [sz]; omega)
      simp only [optNodeChildren, sz]
      exact ⟨by omega, fun h0 => by rw [h2 (by omega), h4 (by omega)]⟩
  | logical op l r =>
      obtain ⟨h1, h2⟩ := hrec l (by simp only [sz]; omega)
      obtain ⟨h3, h4⟩ := hrec r (by simp only [sz]; omega)
      simp only [optNodeChildren, sz]
      exact ⟨by omega, fun h0 => by rw [h2 (by omega), h4 (by omega)]⟩
  | contains l r =>
      obtain ⟨h1, h2⟩ := hrec l (by simp only [sz]; omega)
      obtain ⟨h3, h4⟩ := hrec r (by simp only [sz]; omega)
      simp only [optNodeChildren, sz]
      exact ⟨by omega, fun h0 => by rw [h2 (by omega), h4 (by omega)]⟩
  | matchOp l r =>
      obtain ⟨h1, h2⟩ := hrec l (by simp only [sz]; omega)
      obtain ⟨h3, h4⟩ := hrec r (by simp only [sz]; omega)
      simp only [optNodeChildren, sz]
      exact ⟨by omega, fun h0 => by rw [h2 (by omega), h4 (by omega)]⟩
  | push pid l =>
      obtain ⟨h1, h2⟩ := hrec l (by simp only [sz]; omega)
      simp only [optNodeChildren, sz]
      exact ⟨by omega, fun h0 => by rw [h2 (by omega)]⟩
  | both l r =>
      obtain ⟨h1, h2⟩ := hrec l (by simp only [sz]; omega)
      obtain ⟨h3, h4⟩ := hrec r (by simp only [sz]; omega)
      simp only [optNodeChildren, sz]
      exact ⟨by omega, fun h0 => by rw [h2 (by omega), h4 (by omega)]⟩
  | branch x l r =>
      rcases l with _ | lx <;> rcases r with _ | rx
      · simp only [optNodeChildren, sz, szO]
        exact ⟨by omega, by simp⟩
      · obtain ⟨h1, h2⟩ := hrec rx (by simp only [sz, szO]; omega)
        simp only [optNodeChildren, sz, szO]
        exact ⟨by omega, fun h0 => by rw [h2 (by omega)]⟩
      · obtain ⟨h1, h2⟩ := hrec lx (by simp only [sz, szO]; omega)
        simp only [optNodeChildren, sz, szO]
        exact ⟨by omega, fun h0 => by rw [h2 (by omega)]⟩
      · obtain ⟨h1, h2⟩ := hrec lx (by simp only [sz, szO]; omega)
        obtain ⟨h3, h4⟩ := hrec rx (by simp only [sz, szO]; omega)
        simp only [optNodeChildren, sz, szO]
        exact ⟨by omega, fun h0 => by rw [h2 (by omega), h4 (by omega)]⟩
  | literal n st sv =>
      simp only [optNodeChildren]
      exact ⟨by simp only [sz]; omega, by simp⟩
  | number q =>
      simp only [optNodeChildren]
      exact ⟨by simp only [sz]; omega, by simp⟩
  | constant c =>
      simp only [optNodeChildren]
      exact ⟨by simp only [sz]; omega, by simp⟩
  | regex p =>
      simp only [optNodeChildren]
      exact ⟨by simp only [sz]; omega, by simp⟩
  | undefined =>
      simp only [optNodeChildren]
      exact ⟨by simp only [sz]; omega, by simp⟩
  | empty =>
      simp only [optNodeChildren]
      exact ⟨by simp only [sz]; omega, by simp⟩
  | litset items st sv =>
      simp only [optNodeChildren]
      exact ⟨by simp only [sz]; omega, by simp⟩
  | cached b cid =>
      simp only [optNodeChildren]
      exact ⟨by simp only [sz]; omega, by simp⟩

theorem optPassF_spec : ∀ fuel e, sz e ≤ fuel →
    sz (optPassF fuel e).2 + (optPassF fuel e).1 ≤ sz e
    ∧ ((optPassF fuel e).1 = 0 → (optPassF fuel e).2 = e) := by
  intro fuel
  induction fuel with
  | zero =>
      intro e he
      have h1 : optPassF 0 e = (0, e) := by simp only [optPassF]
      rw [h1]
      exact ⟨by simp, by simp⟩
  | succ fuel ih =>
      intro e he
      obtain ⟨ha, hz⟩ := optApply_spec e
      have hrec : ∀ x, sz x < sz (optApply e).2 →
          sz (optPassF fuel x).2 + (optPassF fuel x).1 ≤ sz x
          ∧ ((optPassF fuel x).1 = 0 → (optPassF fuel x).2 = x) := by
        intro x hx
        exact ih x (by omega)
      obtain ⟨hc1, hc2⟩ :=
        optNodeChildren_spec (fun x => optPassF fuel x) (optApply e).2 hrec
      have heq : optPassF (fuel+1) e
          = ((optApply e).1
              + (optNodeChildren (fun x => optPassF fuel x) (optApply e).2).1,
             (optNodeChildren (fun x => optPassF fuel x) (optApply e).2).2) := by
        simp only [optPassF]
      rw [heq]
      constructor
      · simp only
        omega
      · intro h0
        simp only at h0 ⊢
        rw [hc2 (by omega)]
        exact hz (by omega)

theorem optimizationPass_spec (e : Expr) :
    sz (optimizationPass e).2 + (optimizationPass e).1 ≤ sz e
    ∧ ((optimizationPass e).1 = 0 → (optimizationPass e).2 = e) :=
  optPassF_spec (sz e) e le_rfl

theorem exists_fixpoint_aux : ∀ n e, sz e ≤ n →
    ∃ N, N ≤ n ∧ (optimizationPass (passesIter e N)).1 = 0 := by
  intro n
  induction n with
  | zero =>
      intro e he
      have h1 := sz_pos e
      omega
  | succ n ih =>
      intro e he
      by_cases h0 : (optimizationPass e).1 = 0
      · refine ⟨0, Nat.zero_le _, ?_⟩
        simp only [passesIter]
        exact h0
      · obtain ⟨hs, _⟩ := optimizationPass_spec e
        obtain ⟨N, hN, hfix⟩ := ih (optimizationPass e).2 (by omega)
        refine ⟨N + 1, by omega, ?_⟩
        have hp : passesIter e (N + 1) = passesIter (optimizationPass e).2 N := by
          simp only [passesIter]
        rw [hp]
        exact hfix

theorem optLoop_fix_stable : ∀ N M e, N ≤ M →
    (optimizationPass (passesIter e N)).1 = 0 →
    (optLoop M e 1).1 = (optLoop N e 1).1 := by
  intro N
  induction N with
  | zero =>
      intro M e _ hfix
      simp only [passesIter] at hfix
      cases M with
      | zero => rfl
      | succ f =>
          have h1 : optLoop (f + 1) e 1 = ((optimizationPass e).2, 1) := by
            simp only [optLoop]
            rw [if_pos (by omega)]
          rw [h1]
          have h2 : (optimizationPass e).2 = e := (optimizationPass_spec e).2 hfix
          simp only [optLoop, h2]
  | succ N ih =>
      intro M e hNM hfix
      obtain ⟨f, rfl⟩ : ∃ f, M = f + 1 := ⟨M - 1, by omega⟩
      have hp : passesIter e (N + 1) = passesIter (optimizationPass e).2 N := by
        simp only [passesIter]
      rw [hp] at hfix
      by_cases hc : (optimizationPass e).1 < 1
      · have h1 : optLoop (f + 1) e 1 = ((optimizationPass e).2, 1) := by
          simp only [optLoop]
          rw [if_pos hc]
        have h2 : optLoop (N + 1) e 1 = ((optimizationPass e).2, 1) := by
          simp only [optLoop]
          rw [if_pos hc]
        rw [h1, h2]
      · have h1 : (optLoop (f + 1) e 1).1 = (optLoop f (optimizationPass e).2 1).1 := by
          simp only [optLoop]
          rw [if_neg hc]
        have h2 : (optLoop (N + 1) e 1).1 = (optLoop N (optimizationPass e).2 1).1 := by
          simp only [optLoop]
          rw [if_neg hc]
        rw [h1, h2]
        exact ih f (optimizationPass e).2 (by omega) hfix

theorem optLoop_passes_le : ∀ f e mc, (optLoop f e mc).2 ≤ f := by
  intro f
  induction f with
  | zero =>
      intro e mc
      simp [optLoop]
  | succ f ih =>
      intro e mc
      simp only [optLoop]
      split
      · simp
      · have h1 := ih (optimizationPass e).2 mc
        simp only
        omega

theorem optLoop_early_stop : ∀ f e mc k, k + 1 < (optLoop f e mc).2 →
    mc ≤ (optimizationPass (passesIter e k)).1 := by
  intro f
  induction f with
  | zero =>
      intro e mc k h
      simp [optLoop] at h
  | succ f ih =>
      intro e mc k h
      simp only [optLoop] at h
      by_cases hc : (optimizationPass e).1 < mc
      · rw [if_pos hc] at h
        simp only at h
        omega
      · rw [if_neg hc] at h
        cases k with
        | zero =>
            simp only [passesIter]
            omega
        | succ j =>
            simp only at h
            have hj : j + 1 < (optLoop f (optimizationPass e).2 mc).2 := by omega
            have h2 := ih (optimizationPass e).2 mc j hj
            have hq : passesIter e (j + 1) = passesIter (optimizationPass e).2 j := by
              simp only [passesIter]
            rw [hq]
            exact h2

/-- C7: the peephole optimizer reaches a fixpoint.  For every AST there
is a pass count `N`, at most the tree size, after which a pass makes
zero changes; with `min_change = 1` the result of `optimize` is the
same for every `max_pass ≥ N`.  Moreover `optimize` never executes
more than `max_pass` passes, and every pass before the last one made
at least `min_change` changes (the loop stops as soon as a pass falls
below `min_change`). -/
theorem optimizer_fixpoint (e : Expr) :
    (∃ N, N ≤ sz e ∧ (optimizationPass (passesIter e N)).1 = 0
      ∧ ∀ M, N ≤ M → optimize e M 1 = optimize e N 1)
    ∧ (∀ mp mc, optimizePassCount e mp mc ≤ mp)
    ∧ (∀ mp mc k, k + 1 < optimizePassCount e mp mc →
        mc ≤ (optimizationPass (passesIter e k)).1) := by
  refine ⟨?_, ?_, ?_⟩
  · obtain ⟨N, hN, hfix⟩ := exists_fixpoint_aux (sz e) e le_rfl
    refine ⟨N, hN, hfix, ?_⟩
    intro M hM
    unfold optimize
    exact optLoop_fix_stable N M e hM hfix
  · intro mp mc
    unfold optimizePassCount
    exact optLoop_passes_le mp e mc
  · intro mp mc k h
    unfold optimizePassCount at h
    exact optLoop_early_stop mp e mc k h

/-! ## Node attribute access and AST pattern matching (tiler.py) -/

/-- The value domain of the `.value` attribute of pypred AST nodes:
`Literal` and `Regex` carry strings, `Number` a float, `Constant` one
of `True`/`False`/`None`, and `LiteralSet` a frozenset of items. -/
inductive AttrVal where
  | str (s : String)
  | num (q : ℚ)
  | const (c : ConstVal)
  | items (its : List Item)
  deriving DecidableEq, Repr

/-- Membership of an item in a frozenset of items.  Python's node
`__eq__` methods compare same-class nodes by `value` and are false
across classes, which is exactly decidable equality of `Item`. -/
def itemMem (x : Item) (l : List Item) : Bool := l.any (fun y => y = x)

/-- Python `==` on two frozensets of items: mutual containment. -/
def itemSetEq (a b : List Item) : Bool :=
  a.all (fun x => itemMem x b) && b.all (fun y => itemMem y a)

/-- `a & b` on item frozensets, keeping the left operand's order (a
Python set's iteration order is unspecified; only membership and
emptiness of the result are ever observed). -/
def interItems (a b : List Item) : List Item := a.filter (fun x => itemMem x b)

/-- `a - b` on item frozensets. -/
def diffItems (a b : List Item) : List Item := a.filter (fun x => !itemMem x b)

/-- Python `==` applied to two `.value` attributes: strings compare to
strings, numbers numerically with `bool` coercion (`True == 1.0`),
constants by identity of `True`/`False`/`None`, frozensets as sets;
every other combination is `False`. -/
def pyAttrEq : AttrVal → AttrVal → Bool
  | .str a, .str b => a = b
  | .num a, .num b => a = b
  | .num a, .const (some b) => a = (if b then 1 else 0)
  | .const (some a), .num b => ((if a then 1 else 0 : ℚ)) = b
  | .const a, .const b => a = b
  | .items a, .items b => itemSetEq a b
  | _, _ => false

/-- The `.value` attribute (`AttributeError` → `none` for nodes
without one). -/
def exprValue : Expr → Option AttrVal
  | .literal n _ _ => some (.str n)
  | .number q => some (.num q)
  | .constant c => some (.const c)
  | .regex p => some (.str p)
  | .litset its _ _ => some (.items its)
  | _ => Option.none

/-- The `.static` attribute (only `Literal` and `LiteralSet` have
one; accessing it on any other node raises `AttributeError`). -/
def exprStaticAttr : Expr → Option Bool
  | .literal _ st _ => some st
  | .litset _ st _ => some st
  | _ => Option.none

/-- The `.right` attribute. -/
def exprRight : Expr → Option Expr
  | .compare _ _ r => some r
  | .logical _ _ r => some r
  | .contains _ r => some r
  | .matchOp _ r => some r
  | .both _ r => some r
  | _ => Option.none

/-- The `.left` attribute. -/
def exprLeft : Expr → Option Expr
  | .compare _ l _ => some l
  | .logical _ l _ => some l
  | .contains l _ => some l
  | .matchOp l _ => some l
  | .negate l => some l
  | .push _ l => some l
  | .both l _ => some l
  | _ => Option.none

/-- The comparison type of a `CompareOperator` (its `.type`). -/
def exprCmpOp : Expr → Option CmpOp
  | .compare op _ _ => some op
  | _ => Option.none

/-- Is the node a `Number`? -/
def isNumberNode : Expr → Bool
  | .number _ => true
  | _ => false

mutual
/-- `ASTPattern.compare_nodes` (tiler.py lines 24-38): same class,
then equal `value` and `type` attributes where the class has them,
then recursive comparison of `left`/`right` children.  A `Branch`
compares only its branch children (its `expr` is neither a `value`,
a `type`, nor a `left`/`right`), and two `CachedNode`s always match
(they have none of the four attributes). -/
def astMatch : Expr → Expr → Bool
  | .literal n _ _, b =>
      match b with
      | .literal n' _ _ => n = n'
      | _ => false
  | .number q, b =>
      match b with
      | .number q' => q = q'
      | _ => false
  | .constant c, b =>
      match b with
      | .constant c' => c = c'
      | _ => false
  | .regex p, b =>
      match b with
      | .regex p' => p = p'
      | _ => false
  | .litset i _ _, b =>
      match b with
      | .litset i' _ _ => itemSetEq i i'
      | _ => false
  | .undefined, b =>
      match b with
      | .undefined => true
      | _ => false
  | .empty, b =>
      match b with
      | .empty => true
      | _ => false
  | .negate l, b =>
      match b with
      | .negate l' => astMatch l l'
      | _ => false
  | .compare op l r, b =>
      match b with
      | .compare op' l' r' => op = op' && astMatch l l' && astMatch r r'
      | _ => false
  | .logical op l r, b =>
      match b with
      | .logical op' l' r' => op = op' && astMatch l l' && astMatch r r'
      | _ => false
  | .contains l r, b =>
      match b with
      | .contains l' r' => astMatch l l' && astMatch r r'
      | _ => false
  | .matchOp l r, b =>
      match b with
      | .matchOp l' r' => astMatch l l' && astMatch r r'
      | _ => false
  | .push _ l, b =>
      match b with
      | .push _ l' => astMatch l l'
      | _ => false
  | .both l r, b =>
      match b with
      | .both l' r' => astMatch l l' && astMatch r r'
      | _ => false
  | .branch _ l r, b =>
      match b with
      | .branch _ l' r' => astMatchO l l' && astMatchO r r'
      | _ => false
  | .cached _ _, b =>
      match b with
      | .cached _ _ => true
      | _ => false

/-- `compare_nodes` through an optional `Branch` child: two absent
children (`None` vs `None`, equal `NoneType` classes with no
attributes) match; an absent child never matches a present one. -/
def astMatchO : Option Expr → Option Expr → Bool
  | Option.none, b =>
      match b with
      | Option.none => true
      | _ => false
  | some a, b =>
      match b with
      | some b' => astMatch a b'
      | _ => false
end

/-! ## The rewriting tiler (tiler.tile with a single pattern) -/

/-- Recursion of `tile` into the `left`/`right` children of the node
left by the pattern loop, parameterized by the recursive tile `rec`.
Only `left`/`right` attributes are descended: `Branch` conditions,
`CachedNode` bodies and `LiteralSet` items are not visited, and an
absent `Branch` child stays absent (`tile(None)` returns `None`). -/
def tileChildren (rec : Expr → Option Expr) : Expr → Option Expr
  | .negate l => do
      let l' ← rec l
      some (.negate l')
  | .compare op l r => do
      let l' ← rec l
      let r' ← rec r
      some (.compare op l' r')
  | .logical op l r => do
      let l' ← rec l
      let r' ← rec r
      some (.logical op l' r')
  | .contains l r => do
      let l' ← rec l
      let r' ← rec r
      some (.contains l' r')
  | .matchOp l r => do
      let l' ← rec l
      let r' ← rec r
      some (.matchOp l' r')
  | .push pid l => do
      let l' ← rec l
      some (.push pid l')
  | .both l r => do
      let l' ← rec l
      let r' ← rec r
      some (.both l' r')
  | .branch x (some lx) (some rx) => do
      let l' ← rec lx
      let r' ← rec rx
      some (.branch x (some l') (some r'))
  | .branch x (some lx) Option.none => do
      let l' ← rec lx
      some (.branch x (some l') Option.none)
  | .branch x Option.none (some rx) => do
      let r' ← rec rx
      some (.branch x Option.none (some r'))
  | .branch x Option.none Option.none => some (.branch x Option.none Option.none)
  | m => some m

/-- `tile(node, [pattern], replace_func)` for a single pattern whose
match test and replacement are fused into `rf`: `rf` returns the node
after the pattern loop (the replacement when the pattern matched and
`replace_func` returned a node, the possibly mutated node otherwise)
or `none` where `replace_func` raises.  The tiler then recurses into
the `left`/`right` children of that node, exactly as the source does
with the replaced `ast`.  The fuel bounds the depth of the traversal;
every replacement performed by the rewriters below is a constant, a
`Negate` around the matched node, or the node itself, so a fuel of
twice the tree size never runs out. -/
def tileF (rf : Expr → Option Expr) : Nat → Expr → Option Expr
  | 0, _ => Option.none
  | fuel+1, e => do
      let e' ← rf e
      tileChildren (tileF rf fuel) e'

/-! ## compare.equality_rewrite (compare.py lines 105-148) -/

/-- The pattern-loop body of `equality_rewrite`'s tile: on a
`CompareOperator` with op `=`, `!=` or `is` whose left matches the
pivot's left, read the node's `right.value` and `right.static` (both
raise on nodes lacking the attribute — `right.static` raises for a
`Number` or `Constant` right), then compute the replacement constant:
a static-vs-static refactor compares the static values outright, a
non-static one only rewrites a node whose right value equals the
pivot's. -/
def equalityRF (known is_static : Bool) (static_value : AttrVal)
    (pivotLeft : Expr) (n : Expr) : Option Expr :=
  match n with
  | .compare op l r =>
      if (op = CmpOp.eq || op = CmpOp.ne || op = CmpOp.isOp)
          && astMatch pivotLeft l then
        match exprValue r with
        | Option.none => Option.none
        | some rv =>
            let static_match := pyAttrEq rv static_value
            match exprStaticAttr r with
            | Option.none => Option.none
            | some is_static_node =>
                let const : Option Bool :=
                  if known && is_static && is_static_node then
                    some (if op = CmpOp.eq || op = CmpOp.isOp then static_match
                          else !static_match)
                  else if static_match then
                    some (if op = CmpOp.eq || op = CmpOp.isOp then known
                          else !known)
                  else Option.none
                match const with
                | some b => some (.constant (some b))
                | Option.none => some (.compare op l r)
      else some (.compare op l r)
  | m => some m

/-- `equality_rewrite(node, name, expr, assumed_result)`: read the
pivot's `right.value` and `right.static`, derive `known` from the
pivot's operator, and tile. -/
def equalityRewrite (node pivot : Expr) (assumed : Bool) : Option Expr := do
  let pr ← exprRight pivot
  let static_value ← exprValue pr
  let is_static ← exprStaticAttr pr
  let pop ← exprCmpOp pivot
  let known := if pop = CmpOp.eq || pop = CmpOp.isOp then assumed else !assumed
  let pl ← exprLeft pivot
  tileF (equalityRF known is_static static_value pl) (2 * sz node) node

/-! ## compare.order_rewrite (compare.py lines 151-275) -/

/-- `node_val > max_bound` with `max_bound` either a float or
`float("inf")` (`none`). -/
def gtMax (v : ℚ) : Option ℚ → Bool
  | some m => decide (m < v)
  | Option.none => false

/-- `node_val == max_bound` / `node_val == min_bound` against a
possibly infinite bound. -/
def eqBound (v : ℚ) : Option ℚ → Bool
  | some m => decide (v = m)
  | Option.none => false

/-- `node_val < min_bound` with `min_bound` either a float or
`float("-inf")` (`none`). -/
def ltMin (v : ℚ) : Option ℚ → Bool
  | some m => decide (v < m)
  | Option.none => false

/-- The static-analysis table of `order_rewrite`'s `replace_func` for
a numeric pivot (compare.py lines 203-264): given the interval bounds
assumed for the pivot's left operand and what the visited node
asserts, decide the constant, `none` where no rewrite applies. -/
def orderTable (minB maxB : Option ℚ) (minIncl maxIncl : Bool)
    (node_val : ℚ) (assert_less assert_equals : Bool) : Option Bool :=
  if assert_less then
    if gtMax node_val maxB then some true
    else if eqBound node_val maxB && maxIncl && assert_equals then some true
    else if eqBound node_val maxB && !maxIncl then some true
    else if ltMin node_val minB then some false
    else if eqBound node_val minB && !assert_equals then some false
    else if eqBound node_val minB && assert_equals && !minIncl then some false
    else Option.none
  else
    if ltMin node_val minB then some true
    else if eqBound node_val minB && !minIncl then some true
    else if eqBound node_val minB && minIncl && assert_equals then some true
    else if gtMax node_val maxB then some false
    else if eqBound node_val maxB && !assert_equals then some false
    else if eqBound node_val maxB && assert_equals && !maxIncl then some false
    else Option.none

/-- The pattern-loop body of `order_rewrite`'s tile: the pattern
requires a `CompareOperator` with op `<`, `<=`, `>` or `>=`, a left
matching the pivot's left, and a `Number` right when the pivot's right
is numeric, a `Literal` right otherwise.  A non-numeric rewrite skips
nodes whose right value differs from the pivot's and otherwise
replaces by the flag comparison; a numeric rewrite consults the
interval table. -/
def orderRF (numeric : Bool) (static_value : AttrVal)
    (minB maxB : Option ℚ) (minIncl maxIncl : Bool)
    (less_than maybe_equals : Bool) (pivotLeft : Expr) (n : Expr) :
    Option Expr :=
  match n with
  | .compare op l r =>
      if (op = CmpOp.lt || op = CmpOp.le || op = CmpOp.gt || op = CmpOp.ge)
          && astMatch pivotLeft l
          && (if numeric then isNumberNode r else isLit r) then
        match exprValue r with
        | Option.none => Option.none
        | some node_val =>
            if !numeric && !pyAttrEq node_val static_value then
              some (.compare op l r)
            else
              let assert_less := op = CmpOp.lt || op = CmpOp.le
              let assert_equals := op = CmpOp.le || op = CmpOp.ge
              if !numeric then
                let c0 := less_than = assert_less
                let const := if maybe_equals then c0 && assert_equals else c0
                some (.constant (some const))
              else
                match node_val with
                | .num q =>
                    match orderTable minB maxB minIncl maxIncl q
                        assert_less assert_equals with
                    | some b => some (.constant (some b))
                    | Option.none => some (.compare op l r)
                | _ => Option.none
      else some (.compare op l r)
  | m => some m

/-- `order_rewrite(node, name, expr, assumed_result)`: derive the
assumed interval for the pivot's left operand from the pivot operator
and the assumed result, flip the direction flags when the result is
assumed false, and tile.  The bound values are only consulted on the
numeric path, where the pivot's right is a `Number`. -/
def orderRewrite (node pivot : Expr) (assumed : Bool) : Option Expr := do
  let pr ← exprRight pivot
  let static_value ← exprValue pr
  let numeric := isNumberNode pr
  let pop ← exprCmpOp pivot
  let less_than := pop = CmpOp.lt || pop = CmpOp.le
  let maybe_equals := pop = CmpOp.le || pop = CmpOp.ge
  let qv : Option ℚ := match static_value with
    | .num q => some q
    | _ => Option.none
  let (minB, minIncl, maxB, maxIncl) :=
    if less_than then
      if assumed then (Option.none, false, qv, maybe_equals)
      else (qv, !maybe_equals, Option.none, false)
    else
      if assumed then (qv, maybe_equals, Option.none, false)
      else (Option.none, false, qv, !maybe_equals)
  let less_than := if assumed then less_than else !less_than
  let maybe_equals := if assumed then maybe_equals else !maybe_equals
  let pl ← exprLeft pivot
  tileF (orderRF numeric static_value minB maxB minIncl maxIncl
    less_than maybe_equals pl) (2 * sz node) node

/-! ## contains.contains_rewrite (contains.py lines 51-96) -/

/-- The pattern-loop body of `contains_rewrite`'s tile: the pattern
requires a `ContainsOperator` whose left is a `LiteralSet` and whose
right matches the pivot's right.  Assumed true: a superset becomes
`Constant(True)`, a disjoint set `Constant(False)`; when the pivot
remainder `S - T` is smaller than the overlap the node's set is
mutated to the remainder and wrapped in a `NegateOperator`, and
otherwise the set is cut down to the overlap in place.  Assumed
false: the pivot's set is removed from the node's set, giving
`Constant(False)` when nothing remains.  The tiler then descends into
the replacement, so a negated node is pattern-matched once more, a
visit that leaves its already reduced set unchanged. -/
def containsRF (assumed : Bool) (pivotSet : List Item) (pivotRight : Expr)
    (n : Expr) : Option Expr :=
  match n with
  | .contains (.litset t st sv) r =>
      if astMatch pivotRight r then
        if assumed then
          let set_prime := interItems t pivotSet
          if itemSetEq set_prime pivotSet then some (.constant (some true))
          else if set_prime.length = 0 then some (.constant (some false))
          else
            let set_prime_diff := diffItems pivotSet t
            if set_prime_diff.length < set_prime.length then
              some (.negate (.contains (.litset set_prime_diff st sv) r))
            else
              some (.contains (.litset set_prime st sv) r)
        else
          let set_prime := diffItems t pivotSet
          if set_prime.length = 0 then some (.constant (some false))
          else some (.contains (.litset set_prime st sv) r)
      else some (.contains (.litset t st sv) r)
  | m => some m

/-- `contains_rewrite(node, name, expr, assumed_result)`: read the
pivot's set and tile. -/
def containsRewrite (node pivot : Expr) (assumed : Bool) : Option Expr := do
  let pl ← exprLeft pivot
  let pivotSet ← match exprValue pl with
    | some (.items its) => some its
    | _ => Option.none
  let pr ← exprRight pivot
  tileF (containsRF assumed pivotSet pr) (2 * sz node) node

/-! ## Expression names and counting (merge.py lines 283-393) -/

/-- The `type` component of a `CompareOperator` name: `"equality"` or
`"order"` under `enable_static`, the raw operator string otherwise. -/
inductive CTy where
  | equality
  | order
  | raw (op : CmpOp)
  deriving DecidableEq, Repr

/-- The hashable names of `merge.node_name`.  `("Literal", "static")`
and a literal whose identifier is the string `"static"` produce the
same Python tuple, so both are `litN "static"`; `("Number", v)` and
`("Number", "static")` never collide (a float is not a string). -/
inductive CName where
  | litN (v : String)
  | litSetN
  | numN (q : ℚ)
  | numStaticN
  | constN (c : ConstVal)
  | regexN (p : String)
  | undefN
  | emptyN
  | cmpN (ty : CTy) (l r : CName)
  | matchN (l r : CName)
  | containsN (l r : CName)
  deriving DecidableEq, Repr

/-- `merge.node_name(node, enable_static)`.  `NegateOperator` and
`LogicalOperator` name their children with the default
`enable_static=False`, as do the children of `MatchOperator` and
`ContainsOperator`; `CompareOperator` passes its flag through.  The
unhandled classes (`PushResult`, `Both`, `Branch`, `CachedNode`)
raise (`none`). -/
def nodeName (enableStatic : Bool) : Expr → Option CName
  | .literal v st _ =>
      some (if enableStatic && st then .litN "static" else .litN v)
  | .litset _ _ _ => some .litSetN
  | .number q => some (if enableStatic then .numStaticN else .numN q)
  | .constant c => some (.constN c)
  | .regex p => some (.regexN p)
  | .undefined => some .undefN
  | .empty => some .emptyN
  | .negate l => nodeName false l
  | .compare op l r => do
      let ln ← nodeName enableStatic l
      let rn ← nodeName enableStatic r
      let ty := if enableStatic then
          if op = CmpOp.eq || op = CmpOp.ne || op = CmpOp.isOp then CTy.equality
          else CTy.order
        else CTy.raw op
      some (.cmpN ty ln rn)
  | .logical _ l r => do
      let ln ← nodeName false l
      match ln with
      | .litN v => some (.litN v)
      | _ => nodeName false r
  | .matchOp l r => do
      let ln ← nodeName false l
      let rn ← nodeName false r
      some (.matchN ln rn)
  | .contains l r => do
      let ln ← nodeName false l
      let rn ← nodeName false r
      some (.containsN ln rn)
  | .push _ _ => Option.none
  | .both _ _ => Option.none
  | .branch _ _ _ => Option.none
  | .cached _ _ => Option.none

/-- `name[3][1] == "static"`: the second tuple component of a compare
name's right sub-name, against the string `"static"`.  On a bare
string name (`"LiteralSet"`, `"Undefined"`, `"Empty"`) the `[1]`
indexes the string's second character, never equal to `"static"`;
float, bool and nested-tuple components compare unequal too. -/
def cnameSecondIsStatic : CName → Bool
  | .litN v => v = "static"
  | .numStaticN => true
  | .regexN p => p = "static"
  | _ => false

/-- Does the node match `simple_types`
(`Literal,LiteralSet,Number,Constant,Undefined,Empty`)? -/
def isSimpleT : Expr → Bool
  | .literal _ _ _ => true
  | .litset _ _ _ => true
  | .number _ => true
  | .constant _ => true
  | .undefined => true
  | .empty => true
  | _ => false

/-- Counting accumulator: `counts` and `nodes` of `count_expressions`
fused into one insertion-ordered association list (Python's two
defaultdicts gain keys at the same moments). -/
def bumpCount (acc : List (CName × Nat × List Expr)) (nm : CName) (e : Expr) :
    List (CName × Nat × List Expr) :=
  match acc with
  | [] => [(nm, 1, [e])]
  | (n, c, es) :: rest =>
      if n = nm then (n, c + 1, es ++ [e]) :: rest
      else (n, c, es) :: bumpCount rest nm e

/-- The pattern loop of `count_expressions`'s tile at one node:
patterns `p1`-`p6` of `count_patterns` are tried in order and
`count_func` runs for each match (a logical operator with literals on
both sides is counted twice, by `p5` and `p6`).  `enable_static` is
set exactly for `CompareOperator` nodes. -/
def countHere (e : Expr) (acc : List (CName × Nat × List Expr)) :
    Option (List (CName × Nat × List Expr)) :=
  let hits : Bool × Bool × Bool × Bool × Bool × Bool :=
    match e with
    | .negate l => (isLit l, false, false, false, false, false)
    | .compare _ l r => (false, isSimpleT l && isSimpleT r, false, false, false, false)
    | .matchOp l _ => (false, false, isSimpleT l, false, false, false)
    | .contains l r => (false, false, false, isSimpleT l && isSimpleT r, false, false)
    | .logical _ l r => (false, false, false, false, isLit l, isLit r)
    | _ => (false, false, false, false, false, false)
  let es : Bool := match e with
    | .compare _ _ _ => true
    | _ => false
  let step (m : Bool) (ac : List (CName × Nat × List Expr)) :
      Option (List (CName × Nat × List Expr)) :=
    if m then (nodeName es e).map (fun nm => bumpCount ac nm e) else some ac
  do
    let a1 ← step hits.1 acc
    let a2 ← step hits.2.1 a1
    let a3 ← step hits.2.2.1 a2
    let a4 ← step hits.2.2.2.1 a3
    let a5 ← step hits.2.2.2.2.1 a4
    step hits.2.2.2.2.2 a5

/-- The tile of `count_expressions`: the pattern loop at each node,
then the `left`/`right` children in tiler order. -/
def countGo : Expr → List (CName × Nat × List Expr) →
    Option (List (CName × Nat × List Expr))
  | .negate l, acc => do countGo l (← countHere (.negate l) acc)
  | .compare op l r, acc => do
      countGo r (← countGo l (← countHere (.compare op l r) acc))
  | .logical op l r, acc => do
      countGo r (← countGo l (← countHere (.logical op l r) acc))
  | .contains l r, acc => do
      countGo r (← countGo l (← countHere (.contains l r) acc))
  | .matchOp l r, acc => do
      countGo r (← countGo l (← countHere (.matchOp l r) acc))
  | .push pid l, acc => do countGo l (← countHere (.push pid l) acc)
  | .both l r, acc => do
      countGo r (← countGo l (← countHere (.both l r) acc))
  | .branch x (some lx) (some rx), acc => do
      countGo rx (← countGo lx (← countHere (.branch x (some lx) (some rx)) acc))
  | .branch x (some lx) Option.none, acc => do
      countGo lx (← countHere (.branch x (some lx) Option.none) acc)
  | .branch x Option.none (some rx), acc => do
      countGo rx (← countHere (.branch x Option.none (some rx)) acc)
  | .branch x Option.none Option.none, acc =>
      countHere (.branch x Option.none Option.none) acc
  | e, acc => countHere e acc

/-- `count_expressions(node)`. -/
def countExpressions (e : Expr) : Option (List (CName × Nat × List Expr)) :=
  countGo e []

/-! ## util.max_count and the Python rendering of names -/

/-- Decimal digits of a rational in `[0,1)` with terminating
expansion. -/
def decDigits : Nat → ℚ → String
  | 0, _ => ""
  | f+1, x =>
      if x = 0 then ""
      else
        let y := x * 10
        let d : Int := y.num / y.den
        toString d ++ decDigits f (y - (d : ℚ))

/-- Python `repr` of a float, for the values that reach a name: a
terminating decimal is rendered as Python renders it (`5.0`, `0.05`);
a non-terminating rational (unreachable from parsed floats) falls
back to a fraction rendering.  Only the relative order of rendered
names is ever consumed (by `util.max_count`). -/
def pyReprQ (q : ℚ) : String :=
  if (q * (10 : ℚ) ^ 17).den = 1 then
    let neg := decide (q < 0)
    let a : ℚ := if neg then -q else q
    let ip : Int := a.num / a.den
    let fr : ℚ := a - (ip : ℚ)
    let ds := decDigits 17 fr
    (if neg then "-" else "") ++ toString ip ++ "." ++
      (if ds.isEmpty then "0" else ds)
  else toString q.num ++ "/" ++ toString q.den

/-- Python `repr` of a string (quote-escape choices for strings that
themselves hold quotes are not reproduced; only ordering is consumed). -/
def pyReprStr (s : String) : String := "'" ++ s ++ "'"

/-- The operator strings of `CompareOperator`. -/
def opStr : CmpOp → String
  | .ge => ">="
  | .gt => ">"
  | .le => "<="
  | .lt => "<"
  | .eq => "="
  | .ne => "!="
  | .isOp => "is"

/-- `repr` of a name nested inside a tuple (strings quoted). -/
def pyReprN : CName → String
  | .litN v => "('Literal', " ++ pyReprStr v ++ ")"
  | .litSetN => "'LiteralSet'"
  | .numN q => "('Number', " ++ pyReprQ q ++ ")"
  | .numStaticN => "('Number', 'static')"
  | .constN (some true) => "('Constant', True)"
  | .constN (some false) => "('Constant', False)"
  | .constN Option.none => "('Constant', None)"
  | .regexN p => "('Regex', " ++ pyReprStr p ++ ")"
  | .undefN => "'Undefined'"
  | .emptyN => "'Empty'"
  | .cmpN ty l r =>
      let tys := match ty with
        | .equality => "'equality'"
        | .order => "'order'"
        | .raw op => pyReprStr (opStr op)
      "('CompareOperator', " ++ tys ++ ", " ++ pyReprN l ++ ", " ++ pyReprN r ++ ")"
  | .matchN l r => "('MatchOperator', " ++ pyReprN l ++ ", " ++ pyReprN r ++ ")"
  | .containsN l r => "('ContainsOperator', " ++ pyReprN l ++ ", " ++ pyReprN r ++ ")"

/-- `str(name)`: a bare string name prints without quotes, a tuple by
the `repr` of its elements. -/
def pyStrN : CName → String
  | .litSetN => "LiteralSet"
  | .undefN => "Undefined"
  | .emptyN => "Empty"
  | n => pyReprN n

/-- Heap order of `util.max_count`'s `(-count, str(name))` pairs:
larger counts first, ties by the rendered name ascending. -/
def mcBefore (a b : Nat × String) : Bool :=
  b.1 < a.1 || (a.1 = b.1 && decide (a.2 ≤ b.2))

/-- Insertion into the popped-order list. -/
def mcInsert (x : CName × Nat) : List (CName × Nat) → List (CName × Nat)
  | [] => [x]
  | y :: ys =>
      if mcBefore (x.2, pyStrN x.1) (y.2, pyStrN y.1) then x :: y :: ys
      else y :: mcInsert x ys

/-- `util.max_count(count)` as the list of `(name, count)` pairs in
pop order: ascending in `(-count, str(name))`.  Distinct names render
distinctly here, so the key is total and the heap's pop order is this
sorted order. -/
def maxCount (entries : List (CName × Nat)) : List (CName × Nat) :=
  entries.foldl (fun acc x => mcInsert x acc) []

/-! ## util.mode, util.median and the compare selector (compare.py 51-84) -/

/-- Is the attribute value a frozenset (unhashable as a dict key)? -/
def isItemsA : AttrVal → Bool
  | .items _ => true
  | _ => false

/-- Count bump keyed by Python `==` (a dict key lookup; `True` and
`1.0` share a slot). -/
def bumpA (acc : List (AttrVal × Nat)) (x : AttrVal) : List (AttrVal × Nat) :=
  match acc with
  | [] => [(x, 1)]
  | (k, c) :: rest =>
      if pyAttrEq k x then (k, c + 1) :: rest
      else (k, c) :: bumpA rest x

/-- `util.mode(lst)`: count each value, then the first value whose
count strictly exceeds all earlier maxima; `None` (inner `none`) for
an empty list.  A frozenset value is unhashable and raises (outer
`none`). -/
def modeA (lst : List AttrVal) : Option (Option AttrVal) :=
  if lst.any isItemsA then Option.none
  else
    let counts := lst.foldl bumpA []
    some (counts.foldl
      (fun best p => match best with
        | (m, it) => if p.2 > m then (p.2, some p.1) else (m, it))
      ((0 : Nat), (Option.none : Option AttrVal))).2

/-- Python `<` on two attribute values: strings and numbers compare
within their kind, numbers coerce booleans, frozensets compare by
proper subset; any other pair raises `TypeError`. -/
def attrLt : AttrVal → AttrVal → Option Bool
  | .str a, .str b => some (decide (a < b))
  | .num a, .num b => some (decide (a < b))
  | .num a, .const (some b) => some (decide (a < if b then 1 else 0))
  | .const (some a), .num b => some (decide ((if a then (1 : ℚ) else 0) < b))
  | .const (some a), .const (some b) =>
      some (decide ((if a then (1 : ℚ) else 0) < if b then 1 else 0))
  | .items a, .items b =>
      some (a.all (fun x => itemMem x b) && !itemSetEq a b)
  | _, _ => Option.none

/-- Insertion into a sorted prefix with Python `<` (stable: an equal
element goes after the ones already placed). -/
def insertA (x : AttrVal) : List AttrVal → Option (List AttrVal)
  | [] => some [x]
  | y :: ys => do
      let b ← attrLt x y
      if b then some (x :: y :: ys)
      else (insertA x ys).map (fun zs => y :: zs)

/-- `lst.sort()`: stable comparison sort; raises where an attempted
`<` does (a homogeneous list never raises, a mixed one raises in the
source's timsort too). -/
def sortA (lst : List AttrVal) : Option (List AttrVal) :=
  lst.foldlM (fun acc x => insertA x acc) []

/-- `util.median(lst)`: sort in place, return `lst[len(lst)//2]`
(`IndexError` on an empty list). -/
def medianA (lst : List AttrVal) : Option AttrVal := do
  let s ← sortA lst
  s.get? (lst.length / 2)

/-- The `e.right.value` attribute of every candidate, as the selector
reads it. -/
def rightValues (exprs : List Expr) : Option (List AttrVal) :=
  exprs.mapM (fun e => do exprValue (← exprRight e))

/-- The selector loop `for e in exprs: if e.right.value == filter_using:
return e` — falling through returns `None`. -/
def findByValue (exprs : List Expr) (values : List AttrVal)
    (fu : AttrVal) : Option Expr :=
  ((exprs.zip values).find? (fun p => pyAttrEq p.2 fu)).map (fun p => p.1)

/-- `compare.select_rewrite_expression(name, exprs)` (compare.py lines
51-84): equality names pick the first expression whose right value is
the mode; order names pick the median for static rights and the mode
otherwise; any other compare name returns `exprs[0]` (raising on an
empty list).  Outer `none` is a raise, inner `none` the Python `None`
of a fallen-through loop. -/
def compareSelect (nm : CName) (exprs : List Expr) : Option (Option Expr) :=
  match nm with
  | .cmpN ty _ rn =>
      match ty with
      | .equality => do
          let values ← rightValues exprs
          let fu ← modeA values
          match fu with
          | some v => some (findByValue exprs values v)
          | Option.none => some Option.none
      | .order => do
          let values ← rightValues exprs
          let fu ← if cnameSecondIsStatic rn then medianA values
            else do
              match (← modeA values) with
              | some v => some v
              | Option.none => Option.none
          some (findByValue exprs values fu)
      | .raw _ =>
          match exprs with
          | [] => Option.none
          | e :: _ => some (some e)
  | _ => Option.none

/-! ## The contains selector (contains.py lines 15-48, util.py 47-51) -/

/-- `util.harmonic_mean(lst)`: raises on an empty list (`1.0 / 0`)
and on a zero element (`1.0 / x`). -/
def harmonicMean (lst : List ℚ) : Option ℚ :=
  if lst.length = 0 || lst.any (fun x => x = 0) then Option.none
  else some (1 / ((1 / (lst.length : ℚ)) * (lst.map (fun x => 1 / x)).sum))

/-- Per-element occurrence bump for the contains selector. -/
def bumpItemCount (acc : List (Item × Nat)) (i : Item) : List (Item × Nat) :=
  match acc with
  | [] => [(i, 1)]
  | (k, c) :: rest =>
      if k = i then (k, c + 1) :: rest
      else (k, c) :: bumpItemCount rest i

/-- Occurrence count of an item (`counts[item]`). -/
def itemCountOf (counts : List (Item × Nat)) (i : Item) : Nat :=
  match counts.find? (fun p => p.1 = i) with
  | some p => p.2
  | Option.none => 0

/-- The candidate sets `[e.left.value for e in exprs]`. -/
def containsSets : List Expr → Option (List (List Item))
  | [] => some []
  | e :: rest =>
      match exprLeft e with
      | some l =>
          match exprValue l with
          | some (.items its) => (containsSets rest).map (fun ss => its :: ss)
          | _ => Option.none
      | Option.none => Option.none

/-- The per-set scores given the global element counts and total. -/
def scoresOf (counts : List (Item × Nat)) (total : ℚ) :
    List (List Item) → Option (List ℚ)
  | [] => some []
  | s :: rest => do
      let h ← harmonicMean (s.map (fun i => (itemCountOf counts i : ℚ) / total))
      let t ← scoresOf counts total rest
      some (h :: t)

/-- The score list of the contains selector: per set, the harmonic
mean of its elements' frequencies across all candidate sets. -/
def containsScores (exprs : List Expr) : Option (List ℚ) := do
  let sets ← containsSets exprs
  let counts := sets.foldl (fun acc s => s.foldl bumpItemCount acc) []
  let total : ℚ := ((sets.map List.length).sum : ℕ)
  scoresOf counts total sets

/-- `contains.select_rewrite_expression(settings, name, exprs)`
(contains.py lines 15-48): per set, the harmonic mean of its
elements' frequencies; the `sorted(...)` call's result is discarded
by the source, so the gate and the return both read `scores[0]` — the
*first* candidate, whatever its score.  Inner `none` is the `None`
returned below `min_density`. -/
def containsSelect (minDensity : ℚ) (exprs : List Expr) :
    Option (Option Expr) := do
  let scores ← containsScores exprs
  match scores, exprs with
  | s0 :: _, e0 :: _ =>
      if s0 < minDensity then some Option.none else some (some e0)
  | _, _ => Option.none

/-! ## merge.select_rewrite_expression and merge.rewrite_ast -/

/-- The settings of `RefactorSettings` (merge.py lines 22-57) that the
refactor pipeline reads. -/
structure Settings where
  maxDepth : Nat
  minSelect : Nat
  maxOptPass : Nat
  minChange : Nat
  minDensity : ℚ
  deriving Repr

/-- `RefactorSettings.shallow()`: `(4, 16, 32, 1, 0.05)`. -/
def shallowSettings : Settings :=
  { maxDepth := 4, minSelect := 16, maxOptPass := 32, minChange := 1,
    minDensity := 1 / 20 }

/-- `merge.select_rewrite_expression(settings, name, exprs)` (merge.py
lines 231-261): compare names to the compare selector, contains names
over a `LiteralSet` to the contains selector; otherwise a negation
selects its child, a logical operator its literal child, and anything
else the first candidate. -/
def selectRewriteExpression (settings : Settings) (nm : CName)
    (exprs : List Expr) : Option (Option Expr) :=
  match nm with
  | .cmpN ty l r => compareSelect (.cmpN ty l r) exprs
  | .containsN .litSetN _ =>
      containsSelect settings.minDensity exprs
  | _ =>
      match exprs with
      | [] => Option.none
      | e :: _ =>
          match e with
          | .negate l => some (some l)
          | .logical _ l r =>
              if isLit l then some (some l) else some (some r)
          | _ => some (some e)

/-- `compare.compare_rewrite` (compare.py lines 87-102): dispatch on
`name[1]`, with `assert False` (a raise) on any other compare name. -/
def compareRewrite (node : Expr) (nm : CName) (pivot : Expr)
    (assumed : Bool) : Option Expr :=
  match nm with
  | .cmpN .equality _ _ => equalityRewrite node pivot assumed
  | .cmpN .order _ _ => orderRewrite node pivot assumed
  | _ => Option.none

/-- The `replace_func` of `rewrite_ast`'s generic branch: every node
matching the pivot's AST is replaced by `Constant(assumed_result)`. -/
def genericRF (pivot : Expr) (assumed : Bool) (n : Expr) : Option Expr :=
  if astMatch pivot n then some (.constant (some assumed)) else some n

/-- `merge.rewrite_ast(node, name, expr, assumed_result)` (merge.py
lines 264-280). -/
def rewriteAst (node : Expr) (nm : CName) (pivot : Expr) (assumed : Bool) :
    Option Expr :=
  match nm with
  | .cmpN ty l r => compareRewrite node (.cmpN ty l r) pivot assumed
  | .containsN .litSetN _ => containsRewrite node pivot assumed
  | _ => tileF (genericRF pivot assumed) (2 * sz node) node

/-! ## merge.static_resolution (merge.py lines 170-176) -/

/-- `set.add` on resolved static values (Python `==` keyed, so `True`
and `1.0` share a slot). -/
def addValSet (acc : List PyVal) (v : PyVal) : List PyVal :=
  if acc.any (fun w => pyEq w v) then acc else acc ++ [v]

/-- `LiteralSet.static_resolve` (ast.py lines 788-810): resolve each
item, and mark the set static with the value set only when every item
resolved (a quoted literal, a number or a constant). -/
def litsetResolve (items : List Item) (st : Bool) (sv : Option (List PyVal)) :
    Expr :=
  let allStatic := items.all (fun i => match i with
    | .lit n => isQuoted n
    | _ => true)
  let vals := items.foldl (fun acc i => match i with
    | .lit n => if isQuoted n then addValSet acc (.str (stripQuotes n)) else acc
    | .num q => addValSet acc (.num q)
    | .const c => addValSet acc (constToVal c)) []
  if allStatic then .litset items true (some vals)
  else .litset items st sv

/-- The `resolve_func` of `static_resolution`: `Literal.static_resolve`
(ast.py lines 446-453) marks a quoted literal static with its string
content and leaves anything else untouched; `LiteralSet` resolves its
items.  Other nodes do not match `types:Literal,LiteralSet`. -/
def staticRF : Expr → Option Expr
  | .literal v st sv =>
      match staticResolve v with
      | .undef => some (.literal v st sv)
      | s => some (.literal v true (some s))
  | .litset items st sv => some (litsetResolve items st sv)
  | m => some m

/-- `merge.static_resolution(ast, pred)`: tile with the resolver (a
pure in-place pass; the fuel of size never runs out on a
replacement-free tile). -/
def staticResolutionE (e : Expr) : Option Expr := tileF staticRF (sz e) e

/-! ## merge.merge (merge.py lines 102-123) -/

/-- One round of the pairing loop: adjacent trees under `Both`, a
trailing odd tree kept as is. -/
def pairUp : List Expr → List Expr
  | x :: y :: rest => .both x y :: pairUp rest
  | l => l

/-- The `while len(all_asts) > 1` loop; each round halves the list, so
its length is fuel enough.  `none` is the `IndexError` of
`all_asts[0]` on no predicates. -/
def mergeLoopF : Nat → List Expr → Option Expr
  | _, [x] => some x
  | 0, l => l.head?
  | f+1, l =>
      if l.length ≤ 1 then l.head?
      else mergeLoopF f (pairUp l)

/-- `merge.merge(predicates)`: wrap every predicate's (identically
deep-copied) AST in a `PushResult` carrying the predicate, and pair
up.  A predicate is its id and its parsed tree. -/
def mergeAsts (preds : List (Nat × Expr)) : Option Expr :=
  mergeLoopF preds.length (preds.map (fun p => .push p.1 p.2))

/-! ## merge.recursive_refactor (merge.py lines 179-228) -/

/-- The node list stored under a name by `count_expressions`. -/
def nodesOf (names : List (CName × Nat × List Expr)) (nm : CName) :
    List Expr :=
  match names.find? (fun p => p.1 = nm) with
  | some p => p.2.2
  | Option.none => []

/-- The expression-picking loop of `recursive_refactor` (merge.py
lines 195-213): walk `max_count` in pop order; a count below
`min_select` stops with no pick (the source returns the node), a
successful selection breaks with the name and pivot, a `None`
selection moves to the next name, and an exhausted loop stops with no
pick. -/
def pickExpr (settings : Settings) (names : List (CName × Nat × List Expr)) :
    List (CName × Nat) → Option (Option (CName × Expr))
  | [] => some Option.none
  | (nm, c) :: rest =>
      if c < settings.minSelect then some Option.none
      else do
        let sel ← selectRewriteExpression settings nm (nodesOf names nm)
        match sel with
        | some e => some (some (nm, e))
        | Option.none => pickExpr settings names rest

/-- `merge.recursive_refactor(node, settings, depth)`, structurally on
the remaining depth `max_depth - depth`.  The `dup` of the left side
deep-copies every mutable node (`Literal`, `Number`, `Constant`,
`Regex`, `Undefined` and `Empty` return themselves but are never
mutated afterwards), so it is the identity on values. -/
def recursiveRefactor (settings : Settings) : Nat → Expr → Option Expr
  | 0, node => some node
  | d+1, node => do
      let counts ← countExpressions node
      let pick ← pickExpr settings counts
        (maxCount (counts.map (fun p => (p.1, p.2.1))))
      match pick with
      | Option.none => some node
      | some (nm, pivot) => do
          let left1 ← rewriteAst node nm pivot true
          let left2 := optimize left1 settings.maxOptPass settings.minChange
          let left3 ← recursiveRefactor settings d left2
          let right1 ← rewriteAst node nm pivot false
          let right2 := optimize right1 settings.maxOptPass settings.minChange
          let right3 ← recursiveRefactor settings d right2
          some (.branch pivot (some left3) (some right3))

/-! ## compact.compact and cache.cache_expressions -/

/-- The names of `compact.node_name` (compact.py lines 23-42): every
node class is rendered, with `None` (`noneC`) for the unhandled
special classes; a `None` nested under an operator is a real tuple
component. -/
inductive NName where
  | litC (v : String)
  | numC (q : ℚ)
  | constC (c : ConstVal)
  | regexC (p : String)
  | setC (items : List Item)
  | undefC
  | emptyC
  | negC (n : NName)
  | cmpC (op : CmpOp) (l r : NName)
  | logC (op : LogOp) (l r : NName)
  | matchC (l r : NName)
  | containsC (l r : NName)
  | noneC
  deriving Repr

/-- `compact.node_name(node)`. -/
def nodeNameC : Expr → NName
  | .literal v _ _ => .litC v
  | .number q => .numC q
  | .constant c => .constC c
  | .regex p => .regexC p
  | .litset its _ _ => .setC its
  | .undefined => .undefC
  | .empty => .emptyC
  | .negate l => .negC (nodeNameC l)
  | .compare op l r => .cmpC op (nodeNameC l) (nodeNameC r)
  | .logical op l r => .logC op (nodeNameC l) (nodeNameC r)
  | .contains l r => .containsC (nodeNameC l) (nodeNameC r)
  | .matchOp l r => .matchC (nodeNameC l) (nodeNameC r)
  | .push _ _ => .noneC
  | .both _ _ => .noneC
  | .branch _ _ _ => .noneC
  | .cached _ _ => .noneC

/-- Python `==` on compact names: structural, with frozenset equality
for `LiteralSet` values. -/
def nnameEq : NName → NName → Bool
  | .litC a, .litC b => a = b
  | .numC a, .numC b => a = b
  | .constC a, .constC b => a = b
  | .regexC a, .regexC b => a = b
  | .setC a, .setC b => itemSetEq a b
  | .undefC, .undefC => true
  | .emptyC, .emptyC => true
  | .negC a, .negC b => nnameEq a b
  | .cmpC o a c, .cmpC o' a' c' => o = o' && nnameEq a a' && nnameEq c c'
  | .logC o a c, .logC o' a' c' => o = o' && nnameEq a a' && nnameEq c c'
  | .matchC a c, .matchC a' c' => nnameEq a a' && nnameEq c c'
  | .containsC a c, .containsC a' c' => nnameEq a a' && nnameEq c c'
  | .noneC, .noneC => true
  | _, _ => false

/-- Is the name Python-falsy (`if name` fails only for `None`)? -/
def isNoneC : NName → Bool
  | .noneC => true
  | _ => false

/-- `isinstance(name, tuple) and "Operator" in name[0]`. -/
def isOpName : NName → Bool
  | .negC _ => true
  | .cmpC _ _ _ => true
  | .logC _ _ _ => true
  | .matchC _ _ => true
  | .containsC _ _ => true
  | _ => false

/-- Lookup keyed by name equality. -/
def lookupN {α : Type} (st : List (NName × α)) (nm : NName) : Option α :=
  (st.find? (fun p => nnameEq p.1 nm)).map (fun p => p.2)

/-- Count bump keyed by name equality. -/
def bumpN (st : List (NName × Nat)) (nm : NName) : List (NName × Nat) :=
  match st with
  | [] => [(nm, 1)]
  | (k, c) :: rest =>
      if nnameEq k nm then (k, c + 1) :: rest
      else (k, c) :: bumpN rest nm

/-- State-threading recursion of `tile` into `left`/`right` children,
parameterized over the recursive visitor. -/
def tileChildrenS {σ : Type} (rec : Expr → σ → Expr × σ) :
    Expr → σ → Expr × σ
  | .negate l, st =>
      let p := rec l st
      (.negate p.1, p.2)
  | .compare op l r, st =>
      let p := rec l st
      let q := rec r p.2
      (.compare op p.1 q.1, q.2)
  | .logical op l r, st =>
      let p := rec l st
      let q := rec r p.2
      (.logical op p.1 q.1, q.2)
  | .contains l r, st =>
      let p := rec l st
      let q := rec r p.2
      (.contains p.1 q.1, q.2)
  | .matchOp l r, st =>
      let p := rec l st
      let q := rec r p.2
      (.matchOp p.1 q.1, q.2)
  | .push pid l, st =>
      let p := rec l st
      (.push pid p.1, p.2)
  | .both l r, st =>
      let p := rec l st
      let q := rec r p.2
      (.both p.1 q.1, q.2)
  | .branch x (some lx) (some rx), st =>
      let p := rec lx st
      let q := rec rx p.2
      (.branch x (some p.1) (some q.1), q.2)
  | .branch x (some lx) Option.none, st =>
      let p := rec lx st
      (.branch x (some p.1) Option.none, p.2)
  | .branch x Option.none (some rx), st =>
      let q := rec rx st
      (.branch x Option.none (some q.1), q.2)
  | .branch x Option.none Option.none, st =>
      (.branch x Option.none Option.none, st)
  | m, st => (m, st)

/-- `compact.compact`'s tile: at each node, a named node already in
the cache is replaced by the first-seen node of that name, otherwise
it registers itself; the tiler then descends into the (possibly
replaced) node's children.  The Python cache holds object references
that are compacted in place by the ongoing traversal; replaying the
traversal on the registered snapshot with the current cache yields
the same tree, because registrations are first-come and lookups
deterministic.  Equal names imply equal depth, so the size of the
root is fuel enough. -/
def compactGo : Nat → Expr → List (NName × Expr) → Expr × List (NName × Expr)
  | 0, e, st => (e, st)
  | fuel+1, e, st =>
      let nm := nodeNameC e
      let (e', st') :=
        if isNoneC nm then (e, st)
        else
          match lookupN st nm with
          | some stored => (stored, st)
          | Option.none => (e, st ++ [(nm, e)])
      tileChildrenS (compactGo fuel) e' st'

/-- `compact.compact(node)`. -/
def compactE (e : Expr) : Expr := (compactGo (sz e) e []).1

/-- The counting tile of `cache_expressions`: operator names only. -/
def cacheCountGo : Nat → Expr → List (NName × Nat) → Expr × List (NName × Nat)
  | 0, e, st => (e, st)
  | fuel+1, e, st =>
      let nm := nodeNameC e
      let st1 := if isOpName nm then bumpN st nm else st
      tileChildrenS (cacheCountGo fuel) e st1

/-- The replacement tile of `cache_expressions`: a node whose operator
name occurs more than once is wrapped in a `CachedNode` (one shared
per name, ids in first-visit order); a `CachedNode` has no
`left`/`right`, so the tiler does not descend below a wrap. -/
def cacheReplGo (counts : List (NName × Nat)) :
    Nat → Expr → List (NName × Expr) × Nat → Expr × (List (NName × Expr) × Nat)
  | 0, e, st => (e, st)
  | fuel+1, e, st =>
      let nm := nodeNameC e
      if !isNoneC nm && (lookupN counts nm).getD 0 > 1 then
        match lookupN st.1 nm with
        | some c => (c, st)
        | Option.none =>
            let c := Expr.cached e st.2
            (c, (st.1 ++ [(nm, c)], st.2 + 1))
      else
        tileChildrenS (cacheReplGo counts fuel) e st

/-- `cache.cache_expressions(node)`. -/
def cacheExpressions (e : Expr) : Expr :=
  let counts := (cacheCountGo (sz e) e []).2
  (cacheReplGo counts (sz e) e ([], 0)).1

/-! ## merge.refactor and the predicate sets (merge.py 126-167, set.py) -/

/-- `merge.refactor(pred_set, ast, settings)` with every stage flag at
its constructed `True`. -/
def refactor (settings : Settings) (node : Expr) : Option Expr := do
  let n1 ← staticResolutionE node
  let n2 := canonicalize n1
  let n3 := optimize n2 settings.maxOptPass settings.minChange
  let n4 ← recursiveRefactor settings settings.maxDepth n3
  let n5 ← staticResolutionE n4
  let n6 := compactE n5
  some (cacheExpressions n6)

/-- `OptimizedPredicateSet.compile_ast` (set.py lines 137-149) under
the default `settings=None` (`shallow`): merge and refactor, or
`Constant(True)` for an empty set. -/
def compileAst (preds : List (Nat × Expr)) : Option Expr :=
  match preds with
  | [] => some (.constant (some true))
  | _ => do
      let m ← mergeAsts preds
      refactor shallowSettings m

/-- `OptimizedPredicateSet.evaluate(doc)` (set.py lines 90-107):
compile, evaluate the single AST, return the pushed matches. -/
def optimizedEvaluate (rgx : String → String → Bool)
    (preds : List (Nat × Expr)) (doc : List (String × PyVal)) :
    Option (List Nat) := do
  let a ← compileAst preds
  let (_, ctx') ← eval rgx a { doc := doc, resolvers := [] }
  some ctx'.results

/-- `PredicateSet.evaluate(doc)` (set.py lines 36-45): sequential
evaluation, collecting the predicates whose result is truthy. -/
def naiveEvaluate (rgx : String → String → Bool)
    (preds : List (Nat × Expr)) (doc : List (String × PyVal)) :
    Option (List Nat) :=
  preds.foldlM (fun acc p => do
    let b ← evalPredicate rgx p.2 doc
    pure (if b then acc ++ [p.1] else acc)) []

/-! ## Concrete inputs for the refinement and rewriter claims -/

/-- The predicate `a < 5`. -/
def cmpLt5 : Expr := .compare .lt (.literal "a" false Option.none) (.number 5)

/-- The predicate `a > 4`. -/
def cmpGt4 : Expr := .compare .gt (.literal "a" false Option.none) (.number 4)

/-- Sixteen valid predicates: ids 0-14 parse `a < 5`, id 15 parses
`a > 4`.  Sixteen shared-name compares reach the shallow `min_select`
of 16, so the refactor pivots on `a < 5`. -/
def claim1Preds : List (Nat × Expr) :=
  (List.range 15).map (fun i => (i, cmpLt5)) ++ [(15, cmpGt4)]

/-- The identifier operand `x` of the contains examples. -/
def xLit : Expr := .literal "x" false Option.none

/-- The pivot set `S = {1, 2, 3}`. -/
def setS : List Item := [.num 1, .num 2, .num 3]

/-- The sibling set `T = {2, 3, 4, 5, 6, 7}`. -/
def setT : List Item := [.num 2, .num 3, .num 4, .num 5, .num 6, .num 7]

/-- The candidate `{1, 2, 3, 4} contains x`. -/
def cA : Expr := .contains (.litset [.num 1, .num 2, .num 3, .num 4] false Option.none) xLit

/-- The candidate `{4} contains x`. -/
def cB : Expr := .contains (.litset [.num 4] false Option.none) xLit

/-- C1: the optimized and naive predicate sets are *not* equivalent.
On the sixteen valid predicates `claim1Preds` and the empty document,
the naive set matches nothing (identifier `a` is undefined, so both
comparisons are false), but the optimized pipeline — which assumes
`a < 5` false on the right branch of its pivot and rewrites `a > 4`
there to `Constant(True)` by interval reasoning that ignores the
undefined case — pushes predicate 15.  The two results differ even as
sets: 15 is matched by the optimized set only. -/
theorem optimized_vs_naive_not_equal :
    optimizedEvaluate (fun _ _ => false) claim1Preds [] = some [15]
    ∧ naiveEvaluate (fun _ _ => false) claim1Preds [] = some []
    ∧ (15 : Nat) ∈ [15] ∧ (15 : Nat) ∉ ([] : List Nat) :=
  ⟨rfl, rfl, by decide, by decide⟩

/-- C2: branch-rewrite soundness fails.  With pivot `a > 4` assumed
false, `rewrite_ast` (through `order_rewrite`) replaces the sibling
`a < 5` by `Constant(True)`; yet under the empty document the pivot
does evaluate to the assumed `False` (both operands comparisons on an
undefined `a` are false) while the replaced node evaluates to
`False`, not the constant's `True`. -/
theorem order_rewrite_unsound_branch :
    nodeName true cmpGt4 = some (.cmpN .order (.litN "a") .numStaticN)
    ∧ rewriteAst cmpLt5 (.cmpN .order (.litN "a") .numStaticN) cmpGt4 false
        = some (.constant (some true))
    ∧ evalPredicate (fun _ _ => false) cmpGt4 [] = some false
    ∧ evalPredicate (fun _ _ => false) cmpLt5 [] = some false
    ∧ evalPredicate (fun _ _ => false) (.constant (some true)) [] = some true :=
  ⟨rfl, rfl, rfl, rfl, rfl⟩

/-- C4: the contains selector does not pick the highest score.  On
the candidates `{1,2,3,4} contains x` and `{4} contains x` the scores
are `8/35` and `2/5`; the second is strictly higher and the first is
above the shallow `min_density` of `1/20`, yet the selector returns
the first candidate — the `sorted(...)` whose result would have put
the highest score at index 0 is discarded by the source. -/
theorem contains_select_first_not_highest :
    containsScores [cA, cB] = some [8/35, 2/5]
    ∧ (8 : ℚ)/35 < 2/5
    ∧ (1 : ℚ)/20 ≤ 8/35
    ∧ containsSelect (1/20) [cA, cB] = some (some cA)
    ∧ cA ≠ cB := by
  refine ⟨?_, by norm_num, by norm_num, ?_, by simp [cA, cB]⟩
  · norm_num [containsScores, containsSets, scoresOf, harmonicMean, bumpItemCount,
      itemCountOf, exprLeft, exprValue, xLit, cA, cB, List.find?, Option.bind]
  · norm_num [containsSelect, containsScores, containsSets, scoresOf, harmonicMean,
      bumpItemCount, itemCountOf, exprLeft, exprValue, xLit, cA, cB, List.find?,
      Option.bind]

/-! ## Item-set lemmas and the contains-rewrite claim (C3) -/

theorem itemMem_eq_decide (x : Item) : ∀ l : List Item, itemMem x l = decide (x ∈ l) := by
  intro l
  induction l with
  | nil => simp [itemMem]
  | cons a l ih =>
      simp only [itemMem, List.any_cons] at ih ⊢
      rw [ih]
      simp [List.mem_cons, eq_comm]

theorem all_congr_items {l : List Item} {f g : Item → Bool}
    (h : ∀ x ∈ l, f x = g x) : l.all f = l.all g := by
  induction l with
  | nil => rfl
  | cons a l ih =>
      simp only [List.all_cons]
      rw [h a (List.mem_cons_self a l), ih (fun x hx => h x (List.mem_cons_of_mem a hx))]

theorem interItems_diff (S T : List Item) :
    interItems (diffItems S T) S = diffItems S T := by
  unfold interItems
  apply List.filter_eq_self.mpr
  intro x hx
  have hxS : x ∈ S := (List.mem_filter.mp hx).1
  simp [itemMem_eq_decide, hxS]

theorem itemSetEq_inter (S T : List Item) :
    itemSetEq (interItems T S) S = S.all (fun x => itemMem x T) := by
  unfold itemSetEq
  have h1 : (interItems T S).all (fun x => itemMem x S) = true := by
    simp only [List.all_eq_true, interItems]
    intro x hx
    exact (List.mem_filter.mp hx).2
  rw [h1, Bool.true_and]
  apply all_congr_items
  intro x hx
  rw [itemMem_eq_decide, itemMem_eq_decide]
  simp only [interItems, List.mem_filter]
  rw [itemMem_eq_decide]
  simp [hx]

theorem diff_diff_items (S T : List Item) :
    diffItems S (diffItems S T) = interItems S T := by
  unfold diffItems interItems
  apply List.filter_congr
  intro x hx
  rw [itemMem_eq_decide]
  simp only [List.mem_filter]
  rw [itemMem_eq_decide]
  simp [hx]

theorem length_inter_comm (S T : List Item) (hS : S.Nodup) (hT : T.Nodup) :
    (interItems S T).length = (interItems T S).length := by
  have kS : (interItems S T).toFinset.card = (interItems S T).length :=
    List.toFinset_card_of_nodup (hS.filter _)
  have kT : (interItems T S).toFinset.card = (interItems T S).length :=
    List.toFinset_card_of_nodup (hT.filter _)
  have eS : (interItems S T).toFinset = S.toFinset ∩ T.toFinset := by
    ext x
    simp [interItems, List.mem_filter, itemMem_eq_decide]
  have eT : (interItems T S).toFinset = T.toFinset ∩ S.toFinset := by
    ext x
    simp [interItems, List.mem_filter, itemMem_eq_decide]
  rw [← kS, ← kT, eS, eT, Finset.inter_comm]

theorem astMatch_refl (e : Expr) : astMatch e e = true := by
  suffices h : ∀ n, ∀ e : Expr, sz e ≤ n → astMatch e e = true from h (sz e) e le_rfl
  intro n
  induction n with
  | zero =>
      intro e he
      have := sz_pos e
      omega
  | succ n ih =>
      intro e he
      cases e with
      | literal v st sv => simp [astMatch]
      | number q => simp [astMatch]
      | constant c => simp [astMatch]
      | regex p => simp [astMatch]
      | litset i st sv => simp [astMatch, itemSetEq, itemMem, List.all_eq_true]
      | undefined => simp [astMatch]
      | empty => simp [astMatch]
      | negate l =>
          simp only [sz] at he
          simp [astMatch, ih l (by omega)]
      | compare op l r =>
          simp only [sz] at he
          simp [astMatch, ih l (by omega), ih r (by omega)]
      | logical op l r =>
          simp only [sz] at he
          simp [astMatch, ih l (by omega), ih r (by omega)]
      | contains l r =>
          simp only [sz] at he
          simp [astMatch, ih l (by omega), ih r (by omega)]
      | matchOp l r =>
          simp only [sz] at he
          simp [astMatch, ih l (by omega), ih r (by omega)]
      | push pid l =>
          simp only [sz] at he
          simp [astMatch, ih l (by omega)]
      | both l r =>
          simp only [sz] at he
          simp [astMatch, ih l (by omega), ih r (by omega)]
      | branch x l r =>
          simp only [sz] at he
          cases l with
          | none =>
              cases r with
              | none => simp [astMatch, astMatchO]
              | some rx =>
                  simp only [szO] at he
                  simp [astMatch, astMatchO, ih rx (by omega)]
          | some lx =>
              cases r with
              | none =>
                  simp only [szO] at he
                  simp [astMatch, astMatchO, ih lx (by omega)]
              | some rx =>
                  simp only [szO] at he
                  simp [astMatch, astMatchO, ih lx (by omega), ih rx (by omega)]
      | cached e2 cid => simp [astMatch]


set_option maxHeartbeats 1600000 in
theorem contains_tile_shape (S T : List Item) (st st1 st2 : Bool)
    (sv : Option (List PyVal)) (sv1 sv2 : Option PyVal) (x : String) (fuel : Nat)
    (hS : S.Nodup) (hT : T.Nodup) :
    tileF (containsRF true S (.literal x st2 sv2)) (fuel + 3)
        (.contains (.litset T st sv) (.literal x st1 sv1))
      = some (
          if S.all (fun i => itemMem i T) then .constant (some true)
          else if (interItems T S).length = 0 then .constant (some false)
          else if (diffItems S T).length < (interItems T S).length then
            .negate (.contains (.litset (diffItems S T) st sv) (.literal x st1 sv1))
          else .contains (.litset (interItems T S) st sv) (.literal x st1 sv1)) := by
  have hx : astMatch (Expr.literal x st2 sv2) (Expr.literal x st1 sv1) = true := by
    simp [astMatch]
  have e1 : itemSetEq (interItems T S) S = S.all (fun i => itemMem i T) :=
    itemSetEq_inter S T
  by_cases hall : S.all (fun i => itemMem i T) = true
  · have h1 : itemSetEq (interItems T S) S = true := by rw [e1]; exact hall
    simp [tileF, containsRF, tileChildren, hx, h1, hall]
  · have h1 : itemSetEq (interItems T S) S = false := by
      rw [e1]; exact Bool.eq_false_iff.mpr hall
    have hallf : S.all (fun i => itemMem i T) = false := Bool.eq_false_iff.mpr hall
    by_cases hlen : (interItems T S).length = 0
    · simp [tileF, containsRF, tileChildren, hx, h1, hallf, hlen]
    · have hDne : diffItems S T ≠ [] := by
        have hne : ¬(∀ i ∈ S, itemMem i T = true) := by
          rw [← List.all_eq_true]
          simp [hallf]
        push_neg at hne
        obtain ⟨i, hiS, hiT⟩ := hne
        have hiTf : itemMem i T = false := Bool.eq_false_iff.mpr hiT
        have : i ∈ diffItems S T := by
          unfold diffItems
          exact List.mem_filter.mpr ⟨hiS, by simp [hiTf]⟩
        exact List.ne_nil_of_mem this
      have hD : interItems (diffItems S T) S = diffItems S T := interItems_diff S T
      have hsetD : itemSetEq (diffItems S T) S = false := by
        obtain ⟨y, hy⟩ := List.exists_mem_of_length_pos (Nat.pos_of_ne_zero hlen)
        have hy' := List.mem_filter.mp hy
        have hyT : y ∈ T := hy'.1
        have hyS : y ∈ S := by
          have := hy'.2
          rw [itemMem_eq_decide] at this
          exact of_decide_eq_true this
        have hyD : itemMem y (diffItems S T) = false := by
          rw [itemMem_eq_decide]
          have hyTm : itemMem y T = true := by
            rw [itemMem_eq_decide]
            exact decide_eq_true hyT
          simp [diffItems, List.mem_filter, hyTm]
        have h2 : S.all (fun i => itemMem i (diffItems S T)) = false := by
          apply Bool.eq_false_iff.mpr
          intro hT2
          rw [List.all_eq_true] at hT2
          have := hT2 y hyS
          rw [hyD] at this
          exact Bool.false_ne_true this
        unfold itemSetEq
        simp [h2]
      by_cases hlt : (diffItems S T).length < (interItems T S).length
      · have hnotlt :
            ¬((diffItems S (diffItems S T)).length < (diffItems S T).length) := by
          rw [diff_diff_items, length_inter_comm S T hS hT]
          omega
        simp [tileF, containsRF, tileChildren, hx, h1, hallf, hlen, hlt,
          hsetD, hD, hDne, hnotlt]
      · simp [tileF, containsRF, tileChildren, hx, h1, hallf, hlen, hlt]

/-- C3 (amended): what the contains rewriter actually does to a
sibling `LiteralSet T contains x` under pivot `LiteralSet S contains
x` assumed true.  A superset (`S ⊆ T`) becomes `Constant(True)`, a
disjoint sibling `Constant(False)`; when the pivot remainder `S \ T`
— not the sibling remainder `T \ S` the original claim names — is
smaller than the overlap, the node is negated around `S \ T`; and
otherwise the sibling's set is cut to the overlap `T ∩ S`. -/
theorem contains_rewrite_cases (S T : List Item) (st st1 st2 pst : Bool)
    (sv psv : Option (List PyVal)) (sv1 sv2 : Option PyVal) (x : String)
    (hS : S.Nodup) (hT : T.Nodup) :
    containsRewrite (.contains (.litset T st sv) (.literal x st1 sv1))
        (.contains (.litset S pst psv) (.literal x st2 sv2)) true
      = some (
          if S.all (fun i => itemMem i T) then .constant (some true)
          else if (interItems T S).length = 0 then .constant (some false)
          else if (diffItems S T).length < (interItems T S).length then
            .negate (.contains (.litset (diffItems S T) st sv) (.literal x st1 sv1))
          else .contains (.litset (interItems T S) st sv) (.literal x st1 sv1)) := by
  have hf : 2 * sz (Expr.contains (.litset T st sv) (.literal x st1 sv1)) = 5 + 3 := by
    simp [sz]
  show tileF (containsRF true S (.literal x st2 sv2))
      (2 * sz (Expr.contains (.litset T st sv) (.literal x st1 sv1)))
      (.contains (.litset T st sv) (.literal x st1 sv1)) = _
  rw [hf]
  exact contains_tile_shape S T st st1 st2 sv sv1 sv2 x 5 hS hT

theorem contains_rewrite_cases_witness :
    setS.Nodup ∧ setT.Nodup ∧
    containsRewrite (.contains (.litset setT false Option.none) xLit)
        (.contains (.litset setS false Option.none) xLit) true
      = some (
          if setS.all (fun i => itemMem i setT) then .constant (some true)
          else if (interItems setT setS).length = 0 then .constant (some false)
          else if (diffItems setS setT).length < (interItems setT setS).length then
            .negate (.contains (.litset (diffItems setS setT) false Option.none) xLit)
          else .contains (.litset (interItems setT setS) false Option.none) xLit) :=
  ⟨by decide, by decide,
    contains_rewrite_cases setS setT false false false false Option.none Option.none
      Option.none Option.none "x" (by decide) (by decide)⟩

/-- The rewrite as the specification words it, written from the
claim's sentence for comparison with `containsRewrite` (which is
translated from the source): true when `S ⊆ T`, false when disjoint,
negation around `T \ S` when `|T \ S| < |S ∩ T|`, else cut to the
overlap. -/
def containsRewriteClaimed (S T : List Item) (st : Bool)
    (sv : Option (List PyVal)) (X : Expr) : Expr :=
  if S.all (fun i => itemMem i T) then .constant (some true)
  else if (interItems S T).length = 0 then .constant (some false)
  else if (diffItems T S).length < (interItems S T).length then
    .negate (.contains (.litset (diffItems T S) st sv) X)
  else .contains (.litset (interItems T S) st sv) X

/-- C3 (counterexample): with pivot set `S = {1,2,3}` and sibling set
`T = {2,3,4,5,6,7}`, the source negates around the pivot remainder
`S \ T = {1}` (since `|S \ T| = 1 < 2 = |T ∩ S|`), while the claim's
`T \ S = {4,5,6,7}` test fails (`4 < 2` is false) and cuts the set
to the overlap `{2,3}` instead — two structurally different trees. -/
theorem contains_rewrite_direction :
    containsRewrite (.contains (.litset setT false Option.none) xLit)
        (.contains (.litset setS false Option.none) xLit) true
      = some (.negate (.contains (.litset [.num 1] false Option.none) xLit))
    ∧ containsRewriteClaimed setS setT false Option.none xLit
      = .contains (.litset [.num 2, .num 3] false Option.none) xLit
    ∧ Expr.negate (.contains (.litset [.num 1] false Option.none) xLit)
      ≠ .contains (.litset [.num 2, .num 3] false Option.none) xLit :=
  ⟨rfl, rfl, by simp⟩

/-! ## OptimizedPredicateSet.update and its error classes (C9) -/

/-- The exception classes relevant to `update` (set.py lines 70-82):
the source raises the plain built-in `Exception` on a finalized set
and `ValueError` on an invalid predicate.  `InvalidPredicate` is the
class predicate.py defines (raised only by `Predicate.evaluate`,
`description` and `analyze`); `FinalizedSet` is named by the
specification but defined nowhere in the source — it is listed here
so the divergence can be stated. -/
inductive PyExcClass where
  | exceptionCls
  | valueErrorCls
  | invalidPredicateCls
  | finalizedSetCls
  deriving DecidableEq, Repr

/-- A predicate handle as `update` sees it: its identity and what
`is_valid()` answers. -/
structure PredH where
  id : Nat
  valid : Bool
  deriving DecidableEq, Repr

/-- The mutable state of an `OptimizedPredicateSet`: the identity set
of stored predicates (Python's `set` of `Predicate` objects hashes by
object identity), the compiled AST slot, and the finalized flag. -/
structure OptSet where
  predicates : List Nat
  ast : Option Expr
  finalized : Bool

/-- `self.predicates.update(preds)`: insert each new identity. -/
def predsUnion (cur : List Nat) (ps : List PredH) : List Nat :=
  ps.foldl (fun acc p => if acc.contains p.id then acc else acc ++ [p.id]) cur

/-- `OptimizedPredicateSet.update(preds)` (set.py lines 70-82): raise
the plain `Exception` when finalized, `ValueError` when any predicate
is invalid — both before any mutation — else insert and clear the
compiled AST exactly when the membership count changed. -/
def setUpdate (s : OptSet) (ps : List PredH) : Option PyExcClass × OptSet :=
  if s.finalized then (some .exceptionCls, s)
  else if ps.any (fun p => !p.valid) then (some .valueErrorCls, s)
  else
    let newPreds := predsUnion s.predicates ps
    if newPreds.length ≠ s.predicates.length then
      (Option.none, { predicates := newPreds, ast := Option.none,
                      finalized := s.finalized })
    else
      (Option.none, { s with predicates := newPreds })

/-- C9 (amended): `update` on a finalized set raises the plain
built-in `Exception` (there is no `FinalizedSet` class in the source)
and `ValueError` — not predicate.py's `InvalidPredicate` — on an
invalid predicate, leaving the state untouched in both cases; a
successful update keeps the finalized flag, stores the union, and
clears the compiled AST exactly when membership changed. -/
theorem set_update_cases (s : OptSet) (ps : List PredH) :
    (s.finalized = true → setUpdate s ps = (some .exceptionCls, s))
    ∧ (s.finalized = false → ps.any (fun p => !p.valid) = true →
        setUpdate s ps = (some .valueErrorCls, s))
    ∧ (s.finalized = false → ps.any (fun p => !p.valid) = false →
        (setUpdate s ps).1 = Option.none
        ∧ (setUpdate s ps).2.predicates = predsUnion s.predicates ps
        ∧ (setUpdate s ps).2.finalized = s.finalized
        ∧ (setUpdate s ps).2.ast =
            (if (predsUnion s.predicates ps).length ≠ s.predicates.length
             then Option.none else s.ast)) := by
  refine ⟨?_, ?_, ?_⟩
  · intro hf
    simp [setUpdate, hf]
  · intro hf hv
    simp [setUpdate, hf, hv]
  · intro hf hv
    by_cases hl : (predsUnion s.predicates ps).length = s.predicates.length
    · simp [setUpdate, hf, hv, hl]
    · simp [setUpdate, hf, hv, hl]

/-- C9 (counterexample): the two failure classes the source raises
are the plain `Exception` and `ValueError`, neither of which is the
`FinalizedSet` or `InvalidPredicate` the claim names. -/
theorem set_update_error_classes :
    (setUpdate { predicates := [], ast := some (.constant (some true)),
                 finalized := true } [{ id := 0, valid := true }]).1
      = some .exceptionCls
    ∧ (setUpdate { predicates := [], ast := Option.none, finalized := false }
        [{ id := 0, valid := false }]).1 = some .valueErrorCls
    ∧ PyExcClass.exceptionCls ≠ PyExcClass.finalizedSetCls
    ∧ PyExcClass.valueErrorCls ≠ PyExcClass.invalidPredicateCls :=
  ⟨rfl, rfl, by decide, by decide⟩

end Pypred
